import Mathlib

/-!
# Project tracking API (`main.go`)

A shallow embedding of the in-memory project store of `main.go` and of its five
HTTP handlers, followed by theorems about them.

Modelling decisions
* The two package-level variables `projectList` and `nextProjectID` form the
  record `Store`; a handler is a function `Store → Request → Store × Response`.
  Handlers run one after the other (no interleaving of concurrent requests).
* Go's `int` is 64 bits wide: `nextProjectID++` wraps (`wrapInt`), and a JSON or
  path number outside the `int` range is rejected by the library.
* `encoding/json` is modelled at the level of the JSON value read from the body
  (`JSON`, `Body`), following the documented behaviour of `Decoder.Decode`:
  a body from which no complete JSON value can be read leaves the target
  untouched; otherwise the object members are stored one by one into the
  target, in body order, keys matched case-insensitively, `null` and unknown
  keys skipped, a member of the wrong JSON type skipped and reported as an
  error once the whole object has been processed.
* What a handler writes is a `Response`: the status code and the payload
  handed to `http.Error` or to `json.Encoder.Encode`.
* The two functions that `main` registers with `http.HandleFunc` are
  `handleProjects` and `handleProjectByID`; how `net/http` matches a request
  path against the two patterns is not part of the model.
-/

namespace ProjectAPI

/-! ## Data model -/

/-- The `Project` struct (main.go, lines 13-18). -/
structure Project where
  ID : Int
  Title : String
  Description : String
  Status : String
  deriving DecidableEq, Repr

/-- The zero value of `Project`, as declared by `var newProject Project`. -/
def zeroProject : Project := { ID := 0, Title := "", Description := "", Status := "" }

/-- The package-level variables `projectList` and `nextProjectID` (lines 20-21). -/
structure Store where
  projectList : List Project
  nextProjectID : Int
  deriving DecidableEq, Repr

/-- The store at process start: `projectList` is empty, `nextProjectID` is 1. -/
def Store.init : Store := { projectList := [], nextProjectID := 1 }

/-- Two's-complement wrap-around of a 64-bit signed Go `int`. -/
def wrapInt (x : Int) : Int := (x + 2 ^ 63) % 2 ^ 64 - 2 ^ 63

/-! ## JSON request bodies -/

/-- A JSON value as read by `encoding/json`. A number literal is either an
integer literal (`integer n`) or one with a fraction or exponent part
(`fraction`), which `strconv.ParseInt` rejects whatever its digits are. -/
inductive JSON where
  | null : JSON
  | bool : Bool → JSON
  | integer : Int → JSON
  | fraction : JSON
  | string : String → JSON
  | array : List JSON → JSON
  | object : List (String × JSON) → JSON

/-- What `json.NewDecoder(r.Body)` finds in a request body: `malformed` when no
complete JSON value can be read (empty body, truncated or syntactically invalid
text), `value j` when the body starts with the JSON value `j`. -/
inductive Body where
  | malformed : Body
  | value : JSON → Body

/-- The four JSON-tagged fields of `Project`. -/
inductive Field where
  | id | title | description | status
  deriving DecidableEq, Repr

/-- Case folding of one character of an object key, as `encoding/json` does
when it matches a key against the field tags: ASCII letters fold to upper case,
and so do the two non-ASCII characters whose simple case folding is an ASCII
letter, the long s (U+017F) and the Kelvin sign (U+212A). -/
def foldRune (c : Char) : Char :=
  if 97 ≤ c.toNat ∧ c.toNat ≤ 122 then Char.ofNat (c.toNat - 32)
  else if c.toNat = 0x17F then 'S'
  else if c.toNat = 0x212A then 'K'
  else c

/-- The field of `Project` an object key is stored into, if any
(tags `id`, `title`, `description`, `status`, matched case-insensitively). -/
def fieldOf (key : String) : Option Field :=
  let k := key.data.map foldRune
  if k = ['I', 'D'] then some Field.id
  else if k = ['T', 'I', 'T', 'L', 'E'] then some Field.title
  else if k = ['D', 'E', 'S', 'C', 'R', 'I', 'P', 'T', 'I', 'O', 'N'] then some Field.description
  else if k = ['S', 'T', 'A', 'T', 'U', 'S'] then some Field.status
  else none

/-- Storing one member value into one field of the target. The second
component is `true` when the value has the wrong JSON type for the field (an
`UnmarshalTypeError`), in which case the field is left as it was. `null` is
ignored for `int` and `string` fields. -/
def storeField (f : Field) (v : JSON) (p : Project) : Project × Bool :=
  match f, v with
  | _, JSON.null => (p, false)
  | Field.id, JSON.integer n =>
      if -(2 ^ 63) ≤ n ∧ n < 2 ^ 63 then ({ p with ID := n }, false) else (p, true)
  | Field.title, JSON.string s => ({ p with Title := s }, false)
  | Field.description, JSON.string s => ({ p with Description := s }, false)
  | Field.status, JSON.string s => ({ p with Status := s }, false)
  | _, _ => (p, true)

/-- Decoding the members of a JSON object into the target, in body order. A
type error does not stop the decoding: the remaining members are still stored
and the error is reported at the end. -/
def decodeObject : List (String × JSON) → Project → Project × Bool
  | [], p => (p, false)
  | (k, v) :: rest, p =>
      match fieldOf k with
      | none => decodeObject rest p
      | some f =>
          let r1 := storeField f v p
          let r2 := decodeObject rest r1.1
          (r2.1, r1.2 || r2.2)

/-- Unmarshalling a JSON value into a `Project` target: `null` is a no-op, an
object is stored member by member, every other value is a type error. -/
def unmarshal (j : JSON) (p : Project) : Project × Bool :=
  match j with
  | JSON.null => (p, false)
  | JSON.object kvs => decodeObject kvs p
  | _ => (p, true)

/-- `json.NewDecoder(body).Decode(&p)`: the target after the call, and whether
the call returned a non-nil error. -/
def Decode (b : Body) (p : Project) : Project × Bool :=
  match b with
  | Body.malformed => (p, true)
  | Body.value j => unmarshal j p

/-! ## Requests and responses -/

/-- The parts of `*http.Request` the handlers read. -/
structure Request where
  Method : String
  Path : String
  Body : Body

/-- What a handler writes after the status line. -/
inductive Payload where
  | text : String → Payload
  | project : Project → Payload
  | projects : List Project → Payload
  | empty : Payload
  deriving DecidableEq, Repr

/-- Status code and payload written to the `http.ResponseWriter`. -/
structure Response where
  status : Nat
  body : Payload
  deriving DecidableEq, Repr

/-- `http.Error(w, msg, code)`. -/
def httpError (msg : String) (code : Nat) : Response := { status := code, body := Payload.text msg }

/-! ## `extractID` -/

/-- `strings.Split(s, "/")` on the characters of `s`. -/
def splitSlash : List Char → List (List Char)
  | [] => [[]]
  | c :: cs =>
      if c = '/' then [] :: splitSlash cs
      else
        match splitSlash cs with
        | [] => [[c]]
        | seg :: segs => (c :: seg) :: segs

/-- Value of a run of decimal digits, most significant first, added to the
accumulator `acc`; `none` when a character is not a decimal digit. -/
def parseDigits : List Char → Nat → Option Nat
  | [], acc => some acc
  | c :: cs, acc =>
      if 48 ≤ c.toNat ∧ c.toNat ≤ 57 then parseDigits cs (acc * 10 + (c.toNat - 48)) else none

/-- `strconv.Atoi`: an optional sign, then at least one decimal digit and
nothing else; the value has to fit a 64-bit `int`. `none` stands for a non-nil
error. -/
def Atoi (s : List Char) : Option Int :=
  match s with
  | [] => none
  | c :: cs =>
      let neg := decide (c = '-')
      let ds := if c = '-' ∨ c = '+' then cs else c :: cs
      match ds with
      | [] => none
      | _ :: _ =>
          match parseDigits ds 0 with
          | none => none
          | some n =>
              let v : Int := if neg then -(n : Int) else (n : Int)
              if -(2 ^ 63) ≤ v ∧ v < 2 ^ 63 then some v else none

/-- `extractID` (lines 127-133): the third `/`-separated part of the path,
parsed as an integer. -/
def extractID (path : String) : Option Int :=
  let parts := splitSlash path.data
  if parts.length < 3 then none
  else
    match parts.get? 2 with
    | none => none
    | some part => Atoi part

/-! ## Handlers -/

/-- `createProject` (lines 24-39). The error of `Decode` is discarded. -/
def createProject (s : Store) (r : Request) : Store × Response :=
  if r.Method ≠ "POST" then (s, httpError "Invalid request method" 405)
  else
    let decoded := (Decode r.Body zeroProject).1
    let newProject := { decoded with ID := s.nextProjectID, Status := "notstarted" }
    ({ projectList := s.projectList ++ [newProject],
       nextProjectID := wrapInt (s.nextProjectID + 1) },
     { status := 200, body := Payload.project newProject })

/-- `getProjects` (lines 42-50). -/
def getProjects (s : Store) (r : Request) : Store × Response :=
  if r.Method ≠ "GET" then (s, httpError "Invalid request method" 405)
  else (s, { status := 200, body := Payload.projects s.projectList })

/-- The loop of `getProject` (lines 65-71): the first project whose ID is `id`. -/
def getLoop (id : Int) : List Project → Option Project
  | [] => none
  | project :: rest => if project.ID = id then some project else getLoop id rest

/-- `getProject` (lines 53-73). -/
def getProject (s : Store) (r : Request) : Store × Response :=
  if r.Method ≠ "GET" then (s, httpError "Invalid request method" 405)
  else
    match extractID r.Path with
    | none => (s, httpError "Invalid project ID" 400)
    | some id =>
        match getLoop id s.projectList with
        | some project => (s, { status := 200, body := Payload.project project })
        | none => (s, httpError "Project not found" 404)

/-- The loop of `updateProject` (lines 88-99). At the first project whose ID
is `id` the body is decoded into that very element of the list; on a decode
error the handler returns at once (line 92), otherwise the ID is set back to
`id` (line 94). `none` when the loop ends without a match. -/
def updateLoop (id : Int) (body : Body) : List Project → Option (List Project × Response)
  | [] => none
  | project :: rest =>
      if project.ID = id then
        let d := Decode body project
        if d.2 then some (d.1 :: rest, httpError "Failed to decode request body" 400)
        else
          let updated := { d.1 with ID := id }
          some (updated :: rest, { status := 200, body := Payload.project updated })
      else
        match updateLoop id body rest with
        | none => none
        | some (l, resp) => some (project :: l, resp)

/-- `updateProject` (lines 76-101). -/
def updateProject (s : Store) (r : Request) : Store × Response :=
  if r.Method ≠ "PUT" then (s, httpError "Invalid request method" 405)
  else
    match extractID r.Path with
    | none => (s, httpError "Invalid project ID" 400)
    | some id =>
        match updateLoop id r.Body s.projectList with
        | some (l, resp) => ({ s with projectList := l }, resp)
        | none => (s, httpError "Project not found" 404)

/-- The loop of `deleteProject` (lines 116-122): the list without the first
project whose ID is `id`; `none` when the loop ends without a match. -/
def deleteLoop (id : Int) : List Project → Option (List Project)
  | [] => none
  | project :: rest =>
      if project.ID = id then some rest
      else
        match deleteLoop id rest with
        | none => none
        | some l => some (project :: l)

/-- `deleteProject` (lines 104-124). -/
def deleteProject (s : Store) (r : Request) : Store × Response :=
  if r.Method ≠ "DELETE" then (s, httpError "Invalid request method" 405)
  else
    match extractID r.Path with
    | none => (s, httpError "Invalid project ID" 400)
    | some id =>
        match deleteLoop id s.projectList with
        | some l => ({ s with projectList := l }, { status := 204, body := Payload.empty })
        | none => (s, httpError "Project not found" 404)


/-! ## Sequences of handler calls -/

/-- One invocation of a handler with a request. -/
inductive Call where
  | createProject : Request → Call
  | getProjects : Request → Call
  | getProject : Request → Call
  | updateProject : Request → Call
  | deleteProject : Request → Call

/-- Running one handler call on a store. -/
def Call.run (s : Store) : Call → Store × Response
  | Call.createProject r => ProjectAPI.createProject s r
  | Call.getProjects r => ProjectAPI.getProjects s r
  | Call.getProject r => ProjectAPI.getProject s r
  | Call.updateProject r => ProjectAPI.updateProject s r
  | Call.deleteProject r => ProjectAPI.deleteProject s r

/-- The store after a sequence of handler calls. -/
def runCalls (s : Store) : List Call → Store
  | [] => s
  | c :: t => runCalls (c.run s).1 t

/-- The stores that a sequence of handler calls reaches from the initial one. -/
def Reachable (s : Store) : Prop := ∃ t : List Call, runCalls Store.init t = s

/-- Whether a call is a Create that passes the method check. -/
def Call.isCreate : Call → Bool
  | Call.createProject r => decide (r.Method = "POST")
  | _ => false

/-- The IDs of the projects returned by the Create calls of a sequence, in call
order. -/
def createdIDs (s : Store) : List Call → List Int
  | [] => []
  | c :: t =>
      match c, (c.run s).2.body with
      | Call.createProject _, Payload.project p => p.ID :: createdIDs (c.run s).1 t
      | _, _ => createdIDs (c.run s).1 t

/-- Number of Create calls of a sequence that pass the method check. -/
def creates (t : List Call) : Nat := t.countP Call.isCreate

/-! ## Notions of the specification -/

/-- The string a request body supplies for a field: the value of the last
member of the body's object whose key names the field and whose value is a
string; `none` when the body has no such member. -/
def suppliedString (f : Field) : Body → Option String
  | Body.value (JSON.object kvs) =>
      kvs.reverse.findSome? (fun kv =>
        if fieldOf kv.1 = some f then
          match kv.2 with
          | JSON.string str => some str
          | _ => none
        else none)
  | _ => none

/-- The base-10 integer a text denotes, in the words of the specification: an
optional sign followed by decimal digits, the value within the range of a
64-bit `int`; `none` for every other text. -/
def base10Int (t : List Char) : Option Int :=
  let digits := if t.head? = some '-' ∨ t.head? = some '+' then t.tail else t
  if digits ≠ [] ∧ digits.all (fun c => decide (48 ≤ c.toNat ∧ c.toNat ≤ 57)) = true then
    let n : Nat := digits.foldl (fun acc c => acc * 10 + (c.toNat - 48)) 0
    let v : Int := if t.head? = some '-' then -(n : Int) else (n : Int)
    if -(2 ^ 63) ≤ v ∧ v < 2 ^ 63 then some v else none
  else none

/-- The part of a text before its first `/` (all of it when it has none). -/
def firstSegment (t : List Char) : List Char := t.takeWhile (fun c => decide (c ≠ '/'))

/-! ## Routing -/

/-- The handler that `main` registers for the pattern `/projects`
(lines 137-146): a switch on the request method. -/
def handleProjects (s : Store) (r : Request) : Store × Response :=
  if r.Method = "GET" then getProjects s r
  else if r.Method = "POST" then createProject s r
  else (s, httpError "Method not allowed" 405)

/-- The handler that `main` registers for the pattern `/projects/`
(lines 148-159): a switch on the request method. -/
def handleProjectByID (s : Store) (r : Request) : Store × Response :=
  if r.Method = "GET" then getProject s r
  else if r.Method = "PUT" then updateProject s r
  else if r.Method = "DELETE" then deleteProject s r
  else (s, httpError "Method not allowed" 405)

/-! ## Further notions of the specification -/

/-- Position of the first project of a list whose ID is `id` (the length of the
list when there is none). -/
def firstIndex (id : Int) (l : List Project) : Nat := l.findIdx (fun p => decide (p.ID = id))

/-- Every Update call of a sequence carries a body that decodes without error. -/
def UpdatesDecode (t : List Call) : Prop :=
  ∀ r : Request, Call.updateProject r ∈ t → ∀ p : Project, (Decode r.Body p).2 = false

/-- The list is in strictly ascending order of ID, and every ID in it is at
least 1 and below the counter. -/
def AscendingBelowCounter (s : Store) : Prop :=
  (s.projectList.map Project.ID).Pairwise (fun a b => a < b) ∧
    ∀ p ∈ s.projectList, 1 ≤ p.ID ∧ p.ID < s.nextProjectID

/-! ## A long sequence of calls -/

/-- The decimal digits of a number, most significant first. -/
def decimal (k : Nat) : List Char :=
  (Nat.digits 10 k).reverse.map (fun d => Char.ofNat (48 + d))

/-- The path `/projects/k`. -/
def idPath (k : Nat) : String := "/projects/" ++ String.mk (decimal k)

/-- The calls of `n` rounds, each a Create followed by the Delete of the project
with the next number, starting at `first`: Create, `DELETE /projects/first`,
Create, `DELETE /projects/(first + 1)`, and so on. -/
def createDeleteRounds (first : Nat) : Nat → List Call
  | 0 => []
  | n + 1 =>
      Call.createProject ⟨"POST", "/projects", Body.malformed⟩ ::
        Call.deleteProject ⟨"DELETE", idPath first, Body.malformed⟩ ::
          createDeleteRounds (first + 1) n

/-! ## Lemmas on the three loops -/

theorem getLoop_eq_none {id : Int} {l : List Project} (h : ∀ p ∈ l, p.ID ≠ id) :
    getLoop id l = none := by
  induction l with
  | nil => rfl
  | cons p rest ih =>
      have hp : p.ID ≠ id := h p (List.mem_cons_self _ _)
      have hrest : ∀ q ∈ rest, q.ID ≠ id := fun q hq => h q (List.mem_cons_of_mem _ hq)
      simp [getLoop, hp, ih hrest]

theorem updateLoop_eq_none {id : Int} (body : Body) {l : List Project}
    (h : ∀ p ∈ l, p.ID ≠ id) : updateLoop id body l = none := by
  induction l with
  | nil => rfl
  | cons p rest ih =>
      have hp : p.ID ≠ id := h p (List.mem_cons_self _ _)
      have hrest : ∀ q ∈ rest, q.ID ≠ id := fun q hq => h q (List.mem_cons_of_mem _ hq)
      simp [updateLoop, hp, ih hrest]

theorem deleteLoop_eq_none {id : Int} {l : List Project} (h : ∀ p ∈ l, p.ID ≠ id) :
    deleteLoop id l = none := by
  induction l with
  | nil => rfl
  | cons p rest ih =>
      have hp : p.ID ≠ id := h p (List.mem_cons_self _ _)
      have hrest : ∀ q ∈ rest, q.ID ≠ id := fun q hq => h q (List.mem_cons_of_mem _ hq)
      simp [deleteLoop, hp, ih hrest]

/-- Every project list in which some project has ID `id` splits at the first
such project. -/
theorem exists_first_match {id : Int} {l : List Project} (h : ∃ p ∈ l, p.ID = id) :
    ∃ pre p post, l = pre ++ p :: post ∧ p.ID = id ∧ ∀ q ∈ pre, q.ID ≠ id := by
  induction l with
  | nil => obtain ⟨p, hp, _⟩ := h; cases hp
  | cons a rest ih =>
      by_cases ha : a.ID = id
      · exact ⟨[], a, rest, rfl, ha, fun q hq => by cases hq⟩
      · obtain ⟨p, hp, hpid⟩ := h
        have hrest : ∃ p ∈ rest, p.ID = id := by
          rcases List.mem_cons.mp hp with rfl | hmem
          · exact absurd hpid ha
          · exact ⟨p, hmem, hpid⟩
        obtain ⟨pre, q, post, hl, hq, hpre⟩ := ih hrest
        refine ⟨a :: pre, q, post, by simp [hl], hq, ?_⟩
        intro x hx
        rcases List.mem_cons.mp hx with rfl | hmem
        · exact ha
        · exact hpre x hmem

theorem getLoop_split {id : Int} (pre : List Project) (p : Project) (post : List Project)
    (hp : p.ID = id) (hpre : ∀ q ∈ pre, q.ID ≠ id) :
    getLoop id (pre ++ p :: post) = some p := by
  induction pre with
  | nil => simp [getLoop, hp]
  | cons a pre ih =>
      have ha : a.ID ≠ id := hpre a (List.mem_cons_self _ _)
      have hrest : ∀ q ∈ pre, q.ID ≠ id := fun q hq => hpre q (List.mem_cons_of_mem _ hq)
      simp [getLoop, ha, ih hrest]

theorem deleteLoop_split {id : Int} (pre : List Project) (p : Project) (post : List Project)
    (hp : p.ID = id) (hpre : ∀ q ∈ pre, q.ID ≠ id) :
    deleteLoop id (pre ++ p :: post) = some (pre ++ post) := by
  induction pre with
  | nil => simp [deleteLoop, hp]
  | cons a pre ih =>
      have ha : a.ID ≠ id := hpre a (List.mem_cons_self _ _)
      have hrest : ∀ q ∈ pre, q.ID ≠ id := fun q hq => hpre q (List.mem_cons_of_mem _ hq)
      simp [deleteLoop, ha, ih hrest]

theorem updateLoop_split {id : Int} (body : Body) (pre : List Project) (p : Project)
    (post : List Project) (hp : p.ID = id) (hpre : ∀ q ∈ pre, q.ID ≠ id) :
    updateLoop id body (pre ++ p :: post) =
      if (Decode body p).2 then
        some (pre ++ (Decode body p).1 :: post, httpError "Failed to decode request body" 400)
      else
        some (pre ++ { (Decode body p).1 with ID := id } :: post,
          { status := 200, body := Payload.project { (Decode body p).1 with ID := id } }) := by
  induction pre with
  | nil =>
      by_cases hd : (Decode body p).2 = true <;> simp [updateLoop, hp, hd]
  | cons a pre ih =>
      have ha : a.ID ≠ id := hpre a (List.mem_cons_self _ _)
      have hrest : ∀ q ∈ pre, q.ID ≠ id := fun q hq => hpre q (List.mem_cons_of_mem _ hq)
      by_cases hd : (Decode body p).2 = true <;> simp [updateLoop, ha, ih hrest, hd]


/-! ## The counter -/

theorem wrapInt_eq {x : Int} (h1 : -(2 ^ 63) ≤ x) (h2 : x < 2 ^ 63) : wrapInt x = x := by
  unfold wrapInt
  rw [Int.emod_eq_of_lt (by omega) (by omega)]
  omega

theorem getProjects_store (s : Store) (r : Request) : (getProjects s r).1 = s := by
  unfold getProjects; split <;> rfl

theorem getProject_store (s : Store) (r : Request) : (getProject s r).1 = s := by
  unfold getProject
  split
  · rfl
  · split
    · rfl
    · split <;> rfl

theorem updateProject_counter (s : Store) (r : Request) :
    (updateProject s r).1.nextProjectID = s.nextProjectID := by
  unfold updateProject
  split
  · rfl
  · split
    · rfl
    · split <;> rfl

theorem deleteProject_counter (s : Store) (r : Request) :
    (deleteProject s r).1.nextProjectID = s.nextProjectID := by
  unfold deleteProject
  split
  · rfl
  · split
    · rfl
    · split <;> rfl

theorem createProject_post (s : Store) (r : Request) (h : r.Method = "POST") :
    createProject s r =
      ({ projectList := s.projectList ++
            [{ (Decode r.Body zeroProject).1 with
                ID := s.nextProjectID, Status := "notstarted" }],
         nextProjectID := wrapInt (s.nextProjectID + 1) },
       { status := 200,
         body := Payload.project
            { (Decode r.Body zeroProject).1 with
                ID := s.nextProjectID, Status := "notstarted" } }) := by
  simp [createProject, h]

theorem createProject_not_post (s : Store) (r : Request) (h : r.Method ≠ "POST") :
    createProject s r = (s, httpError "Invalid request method" 405) := by
  simp [createProject, h]

theorem createdIDs_from (t : List Call) :
    ∀ s : Store, -(2 ^ 63) ≤ s.nextProjectID →
      (creates t = 0 ∨ s.nextProjectID + (creates t : Int) ≤ 2 ^ 63) →
      createdIDs s t =
        (List.range (creates t)).map (fun (k : Nat) => s.nextProjectID + (k : Int)) := by
  induction t with
  | nil => intro s _ _; rfl
  | cons c t ih =>
      intro s hlo hb
      cases c with
      | createProject r =>
          by_cases hm : r.Method = "POST"
          · have hc : creates (Call.createProject r :: t) = creates t + 1 := by
              simp [creates, Call.isCreate, hm]
            rw [hc] at hb ⊢
            have hb' : s.nextProjectID + ((creates t : Int) + 1) ≤ 2 ^ 63 := by
              rcases hb with h0 | h1
              · omega
              · push_cast at h1; exact h1
            have hstep : createdIDs s (Call.createProject r :: t) =
                s.nextProjectID :: createdIDs (createProject s r).1 t := by
              simp [createdIDs, Call.run, createProject_post s r hm]
            have hnext : (createProject s r).1.nextProjectID = wrapInt (s.nextProjectID + 1) := by
              simp [createProject_post s r hm]
            have hwlo : -(2 ^ 63) ≤ wrapInt (s.nextProjectID + 1) := by
              unfold wrapInt
              have := Int.emod_nonneg (s.nextProjectID + 1 + 2 ^ 63) (b := 2 ^ 64) (by norm_num)
              omega
            rw [hstep, List.range_succ_eq_map, List.map_cons, List.map_map]
            congr 1
            · simp
            · by_cases hz : creates t = 0
              · rw [ih (createProject s r).1 (by rw [hnext]; exact hwlo) (Or.inl hz), hz]
                rfl
              · have hw : wrapInt (s.nextProjectID + 1) = s.nextProjectID + 1 :=
                  wrapInt_eq (by omega) (by omega)
                rw [ih (createProject s r).1 (by rw [hnext]; exact hwlo)
                  (Or.inr (by rw [hnext, hw]; omega)), hnext, hw]
                apply List.map_congr_left
                intro k _
                simp only [Function.comp, Nat.succ_eq_add_one]
                push_cast
                ring
          · have hc : creates (Call.createProject r :: t) = creates t := by
              simp [creates, Call.isCreate, hm]
            rw [hc] at hb ⊢
            have hstep : createdIDs s (Call.createProject r :: t) = createdIDs s t := by
              simp [createdIDs, Call.run, createProject_not_post s r hm, httpError]
            rw [hstep]; exact ih s hlo hb
      | getProjects r =>
          have hstep : createdIDs s (Call.getProjects r :: t) = createdIDs s t := by
            simp [createdIDs, Call.run, getProjects_store]
          rw [hstep]; exact ih s hlo hb
      | getProject r =>
          have hstep : createdIDs s (Call.getProject r :: t) = createdIDs s t := by
            simp [createdIDs, Call.run, getProject_store]
          rw [hstep]; exact ih s hlo hb
      | updateProject r =>
          have hstep : createdIDs s (Call.updateProject r :: t) =
              createdIDs (updateProject s r).1 t := by
            simp [createdIDs, Call.run]
          have hn := updateProject_counter s r
          rw [hstep, ih (updateProject s r).1 (by rw [hn]; exact hlo) (by rw [hn]; exact hb), hn]
          rfl
      | deleteProject r =>
          have hstep : createdIDs s (Call.deleteProject r :: t) =
              createdIDs (deleteProject s r).1 t := by
            simp [createdIDs, Call.run]
          have hn := deleteProject_counter s r
          rw [hstep, ih (deleteProject s r).1 (by rw [hn]; exact hlo) (by rw [hn]; exact hb), hn]
          rfl

/-! ## Create -/

/-- C1: in every sequence of handler calls run from the initial store, the IDs
returned by the Create calls are, in call order, 1, 2, 3, ...: the k-th Create
returns k, whatever calls (Delete included) come in between; hence the IDs are
strictly increasing and never repeat. The bound on the number of Creates keeps
the 64-bit counter from wrapping. -/
theorem create_ids_sequential (t : List Call) (h : creates t < 2 ^ 63) :
    createdIDs Store.init t = (List.range (creates t)).map (fun (k : Nat) => (k : Int) + 1) ∧
      (createdIDs Store.init t).Pairwise (fun a b => a < b) ∧
      (createdIDs Store.init t).Nodup := by
  have hids : createdIDs Store.init t =
      (List.range (creates t)).map (fun (k : Nat) => (k : Int) + 1) := by
    rw [createdIDs_from t Store.init (by simp [Store.init])
      (Or.inr (by simp only [Store.init]; omega))]
    apply List.map_congr_left
    intro k _
    simp only [Store.init]
    ring
  have hsorted : (createdIDs Store.init t).Pairwise (fun a b => a < b) := by
    rw [hids, List.pairwise_map]
    exact (List.pairwise_lt_range _).imp (fun hab => by omega)
  exact ⟨hids, hsorted, hsorted.imp (fun hab => ne_of_lt hab)⟩

/-- Witness of C1: three Creates with a Delete and a failing Update in between
return the IDs 1, 2, 3. -/
theorem create_ids_sequential_witness :
    createdIDs Store.init
        [Call.createProject ⟨"POST", "/projects", Body.value (JSON.object [])⟩,
         Call.createProject ⟨"POST", "/projects", Body.malformed⟩,
         Call.deleteProject ⟨"DELETE", "/projects/2", Body.malformed⟩,
         Call.updateProject ⟨"PUT", "/projects/1",
           Body.value (JSON.object [("id", JSON.integer 9), ("title", JSON.bool true)])⟩,
         Call.createProject ⟨"POST", "/projects",
           Body.value (JSON.object [("id", JSON.integer 1)])⟩] = [1, 2, 3] :=
  (create_ids_sequential _ (by decide)).1.trans (by decide)

/-- C2: whatever the request body carries, the project that Create returns is
the project it appends to the list, its status is "notstarted" and its ID is
the value the counter had before the call. -/
theorem create_forces_status_and_id (s : Store) (path : String) (body : Body) :
    ∃ q : Project,
      (createProject s ⟨"POST", path, body⟩).2 = { status := 200, body := Payload.project q } ∧
      (createProject s ⟨"POST", path, body⟩).1.projectList = s.projectList ++ [q] ∧
      q.Status = "notstarted" ∧ q.ID = s.nextProjectID := by
  refine ⟨{ (Decode body zeroProject).1 with
      ID := s.nextProjectID, Status := "notstarted" }, ?_, ?_, rfl, rfl⟩
  · rw [createProject_post s _ rfl]
  · rw [createProject_post s _ rfl]

/-! ## Unknown IDs -/

/-- C3: when no project of the store has ID `id`, Get, Update (with any body)
and Delete on a path whose ID is `id` answer 404 "Project not found" and leave
the project list and the counter as they were. -/
theorem unknown_id_not_found (s : Store) (path : String) (body : Body) (id : Int)
    (hpath : extractID path = some id) (hid : ∀ p ∈ s.projectList, p.ID ≠ id) :
    getProject s ⟨"GET", path, body⟩ = (s, httpError "Project not found" 404) ∧
      updateProject s ⟨"PUT", path, body⟩ = (s, httpError "Project not found" 404) ∧
      deleteProject s ⟨"DELETE", path, body⟩ = (s, httpError "Project not found" 404) := by
  refine ⟨?_, ?_, ?_⟩
  · simp [getProject, hpath, getLoop_eq_none hid]
  · simp [updateProject, hpath, updateLoop_eq_none body hid]
  · simp [deleteProject, hpath, deleteLoop_eq_none hid]

/-- Witness of C3: ID 7 in a store that holds project 1 only. -/
theorem unknown_id_not_found_witness :
    getProject ⟨[⟨1, "A", "d", "notstarted"⟩], 2⟩ ⟨"GET", "/projects/7", Body.malformed⟩ =
        (⟨[⟨1, "A", "d", "notstarted"⟩], 2⟩, httpError "Project not found" 404) ∧
      updateProject ⟨[⟨1, "A", "d", "notstarted"⟩], 2⟩ ⟨"PUT", "/projects/7", Body.malformed⟩ =
        (⟨[⟨1, "A", "d", "notstarted"⟩], 2⟩, httpError "Project not found" 404) ∧
      deleteProject ⟨[⟨1, "A", "d", "notstarted"⟩], 2⟩ ⟨"DELETE", "/projects/7", Body.malformed⟩ =
        (⟨[⟨1, "A", "d", "notstarted"⟩], 2⟩, httpError "Project not found" 404) :=
  unknown_id_not_found ⟨[⟨1, "A", "d", "notstarted"⟩], 2⟩ "/projects/7" Body.malformed 7
    (by decide) (by decide)

/-! ## Update -/

/-- The string a single object member supplies for field `f`. -/
theorem storeField_title (f : Field) (v : JSON) (p : Project) :
    (storeField f v p).1.Title =
      (if f = Field.title then
        match v with
        | JSON.string str => some str
        | _ => none
      else none).getD p.Title := by
  cases f <;> cases v <;> simp [storeField]
  split <;> rfl

theorem storeField_description (f : Field) (v : JSON) (p : Project) :
    (storeField f v p).1.Description =
      (if f = Field.description then
        match v with
        | JSON.string str => some str
        | _ => none
      else none).getD p.Description := by
  cases f <;> cases v <;> simp [storeField]
  split <;> rfl

theorem storeField_status (f : Field) (v : JSON) (p : Project) :
    (storeField f v p).1.Status =
      (if f = Field.status then
        match v with
        | JSON.string str => some str
        | _ => none
      else none).getD p.Status := by
  cases f <;> cases v <;> simp [storeField]
  split <;> rfl

theorem decodeObject_title (kvs : List (String × JSON)) :
    ∀ p : Project, (decodeObject kvs p).1.Title =
      (suppliedString Field.title (Body.value (JSON.object kvs))).getD p.Title := by
  induction kvs with
  | nil => intro p; rfl
  | cons kv rest ih =>
      intro p
      obtain ⟨k, v⟩ := kv
      simp only [suppliedString, List.reverse_cons, List.findSome?_append] at ih ⊢
      cases hk : fieldOf k with
      | none => simp [decodeObject, hk, ih]
      | some f =>
          simp only [decodeObject, hk, ih, storeField_title]
          cases hf : List.findSome? (fun kv : String × JSON =>
              if fieldOf kv.1 = some Field.title then
                match kv.2 with
                | JSON.string str => some str
                | _ => none
              else none) rest.reverse with
          | none =>
              by_cases hft : f = Field.title
              · subst hft
                cases v <;> simp [List.findSome?, hk]
              · simp [List.findSome?, hk, hft]
          | some str => simp

theorem decodeObject_description (kvs : List (String × JSON)) :
    ∀ p : Project, (decodeObject kvs p).1.Description =
      (suppliedString Field.description (Body.value (JSON.object kvs))).getD p.Description := by
  induction kvs with
  | nil => intro p; rfl
  | cons kv rest ih =>
      intro p
      obtain ⟨k, v⟩ := kv
      simp only [suppliedString, List.reverse_cons, List.findSome?_append] at ih ⊢
      cases hk : fieldOf k with
      | none => simp [decodeObject, hk, ih]
      | some f =>
          simp only [decodeObject, hk, ih, storeField_description]
          cases hf : List.findSome? (fun kv : String × JSON =>
              if fieldOf kv.1 = some Field.description then
                match kv.2 with
                | JSON.string str => some str
                | _ => none
              else none) rest.reverse with
          | none =>
              by_cases hfd : f = Field.description
              · subst hfd
                cases v <;> simp [List.findSome?, hk]
              · simp [List.findSome?, hk, hfd]
          | some str => simp

theorem decodeObject_status (kvs : List (String × JSON)) :
    ∀ p : Project, (decodeObject kvs p).1.Status =
      (suppliedString Field.status (Body.value (JSON.object kvs))).getD p.Status := by
  induction kvs with
  | nil => intro p; rfl
  | cons kv rest ih =>
      intro p
      obtain ⟨k, v⟩ := kv
      simp only [suppliedString, List.reverse_cons, List.findSome?_append] at ih ⊢
      cases hk : fieldOf k with
      | none => simp [decodeObject, hk, ih]
      | some f =>
          simp only [decodeObject, hk, ih, storeField_status]
          cases hf : List.findSome? (fun kv : String × JSON =>
              if fieldOf kv.1 = some Field.status then
                match kv.2 with
                | JSON.string str => some str
                | _ => none
              else none) rest.reverse with
          | none =>
              by_cases hfs : f = Field.status
              · subst hfs
                cases v <;> simp [List.findSome?, hk]
              · simp [List.findSome?, hk, hfs]
          | some str => simp

/-- What `updateProject` does when the path names ID `id` and the first project
with that ID is `p`. -/
theorem updateProject_split (s : Store) (path : String) (body : Body) (id : Int)
    (pre : List Project) (p : Project) (post : List Project)
    (hpath : extractID path = some id) (hl : s.projectList = pre ++ p :: post)
    (hp : p.ID = id) (hpre : ∀ q ∈ pre, q.ID ≠ id) :
    updateProject s ⟨"PUT", path, body⟩ =
      if (Decode body p).2 then
        ({ s with projectList := pre ++ (Decode body p).1 :: post },
          httpError "Failed to decode request body" 400)
      else
        ({ s with projectList := pre ++ { (Decode body p).1 with ID := id } :: post },
          { status := 200, body := Payload.project { (Decode body p).1 with ID := id } }) := by
  by_cases hd : (Decode body p).2 = true <;>
    simp [updateProject, hpath, hl, updateLoop_split body pre p post hp hpre, hd]

/-- C4: when the store holds a project with ID `i` and the body decodes without
error, Update on ID `i` answers 200, and the project it returns, which is the
project now stored at the position of the first project with ID `i`, has ID
`i`, whatever `id` the body carries. -/
theorem update_keeps_id (s : Store) (path : String) (body : Body) (i : Int)
    (hpath : extractID path = some i) (hmem : ∃ p ∈ s.projectList, p.ID = i)
    (hdec : ∀ p : Project, (Decode body p).2 = false) :
    ∃ (pre : List Project) (p : Project) (post : List Project) (q : Project),
      s.projectList = pre ++ p :: post ∧ p.ID = i ∧ (∀ x ∈ pre, x.ID ≠ i) ∧
      updateProject s ⟨"PUT", path, body⟩ =
        ({ projectList := pre ++ q :: post, nextProjectID := s.nextProjectID },
          { status := 200, body := Payload.project q }) ∧
      q.ID = i := by
  obtain ⟨pre, p, post, hl, hp, hpre⟩ := exists_first_match hmem
  refine ⟨pre, p, post, { (Decode body p).1 with ID := i }, hl, hp, hpre, ?_, rfl⟩
  rw [updateProject_split s path body i pre p post hpath hl hp hpre]
  simp [hdec p]

/-- Witness of C4: project 1 updated with a body that carries `id` 5. -/
theorem update_keeps_id_witness :
    ∃ (pre : List Project) (p : Project) (post : List Project) (q : Project),
      [(⟨1, "A", "d", "notstarted"⟩ : Project)] = pre ++ p :: post ∧ p.ID = 1 ∧
      (∀ x ∈ pre, x.ID ≠ 1) ∧
      updateProject ⟨[⟨1, "A", "d", "notstarted"⟩], 2⟩
          ⟨"PUT", "/projects/1",
            Body.value (JSON.object [("id", JSON.integer 5), ("title", JSON.string "B")])⟩ =
        ({ projectList := pre ++ q :: post, nextProjectID := 2 },
          { status := 200, body := Payload.project q }) ∧
      q.ID = 1 :=
  update_keeps_id ⟨[⟨1, "A", "d", "notstarted"⟩], 2⟩ "/projects/1"
    (Body.value (JSON.object [("id", JSON.integer 5), ("title", JSON.string "B")])) 1
    (by decide) ⟨⟨1, "A", "d", "notstarted"⟩, by decide, rfl⟩ (fun _ => rfl)

theorem Decode_title (body : Body) (p : Project) :
    (Decode body p).1.Title = (suppliedString Field.title body).getD p.Title := by
  cases body with
  | malformed => rfl
  | value j => cases j <;> first | rfl | exact decodeObject_title _ p

theorem Decode_description (body : Body) (p : Project) :
    (Decode body p).1.Description =
      (suppliedString Field.description body).getD p.Description := by
  cases body with
  | malformed => rfl
  | value j => cases j <;> first | rfl | exact decodeObject_description _ p

theorem Decode_status (body : Body) (p : Project) :
    (Decode body p).1.Status = (suppliedString Field.status body).getD p.Status := by
  cases body with
  | malformed => rfl
  | value j => cases j <;> first | rfl | exact decodeObject_status _ p

/-- C5, as the code has it: Update merges the body into the stored project.
When the store holds a project with ID `i` and the body decodes without error,
Update on ID `i` answers 200 with the project now stored at the position of the
first project `p` with ID `i`; its title, description and status are each the
string the body supplies for that field when it supplies one and the value `p`
had before otherwise, and its ID is `i`. -/
theorem update_merges_body (s : Store) (path : String) (body : Body) (i : Int)
    (hpath : extractID path = some i) (hmem : ∃ p ∈ s.projectList, p.ID = i)
    (hdec : ∀ p : Project, (Decode body p).2 = false) :
    ∃ (pre : List Project) (p : Project) (post : List Project) (q : Project),
      s.projectList = pre ++ p :: post ∧ p.ID = i ∧ (∀ x ∈ pre, x.ID ≠ i) ∧
      updateProject s ⟨"PUT", path, body⟩ =
        ({ projectList := pre ++ q :: post, nextProjectID := s.nextProjectID },
          { status := 200, body := Payload.project q }) ∧
      q.ID = i ∧
      q.Title = (suppliedString Field.title body).getD p.Title ∧
      q.Description = (suppliedString Field.description body).getD p.Description ∧
      q.Status = (suppliedString Field.status body).getD p.Status := by
  obtain ⟨pre, p, post, hl, hp, hpre⟩ := exists_first_match hmem
  refine ⟨pre, p, post, { (Decode body p).1 with ID := i }, hl, hp, hpre, ?_, rfl,
    Decode_title body p, Decode_description body p, Decode_status body p⟩
  rw [updateProject_split s path body i pre p post hpath hl hp hpre]
  simp [hdec p]

/-- Witness of C5 as amended: a body with a title only, sent to project 1. -/
theorem update_merges_body_witness :
    ∃ (pre : List Project) (p : Project) (post : List Project) (q : Project),
      [(⟨1, "A", "d", "inprogress"⟩ : Project)] = pre ++ p :: post ∧ p.ID = 1 ∧
      (∀ x ∈ pre, x.ID ≠ 1) ∧
      updateProject ⟨[⟨1, "A", "d", "inprogress"⟩], 2⟩
          ⟨"PUT", "/projects/1", Body.value (JSON.object [("title", JSON.string "B")])⟩ =
        ({ projectList := pre ++ q :: post, nextProjectID := 2 },
          { status := 200, body := Payload.project q }) ∧
      q.ID = 1 ∧
      q.Title =
        (suppliedString Field.title
          (Body.value (JSON.object [("title", JSON.string "B")]))).getD p.Title ∧
      q.Description =
        (suppliedString Field.description
          (Body.value (JSON.object [("title", JSON.string "B")]))).getD p.Description ∧
      q.Status =
        (suppliedString Field.status
          (Body.value (JSON.object [("title", JSON.string "B")]))).getD p.Status :=
  update_merges_body ⟨[⟨1, "A", "d", "inprogress"⟩], 2⟩ "/projects/1"
    (Body.value (JSON.object [("title", JSON.string "B")])) 1
    (by decide) ⟨⟨1, "A", "d", "inprogress"⟩, by decide, rfl⟩ (fun _ => rfl)

/-- Counterexample to C5 as stated: the body `{"title":"B"}` decodes without
error and on its own has an empty description and status, yet after Update the
stored project keeps its description "d" and its status "inprogress": the
result is not the full replacement `{1, "B", "", ""}`. -/
theorem update_full_replace_counterexample :
    Decode (Body.value (JSON.object [("title", JSON.string "B")])) zeroProject =
        (⟨0, "B", "", ""⟩, false) ∧
      updateProject ⟨[⟨1, "A", "d", "inprogress"⟩], 2⟩
          ⟨"PUT", "/projects/1", Body.value (JSON.object [("title", JSON.string "B")])⟩ =
        (⟨[⟨1, "B", "d", "inprogress"⟩], 2⟩,
          { status := 200, body := Payload.project ⟨1, "B", "d", "inprogress"⟩ }) ∧
      (updateProject ⟨[⟨1, "A", "d", "inprogress"⟩], 2⟩
          ⟨"PUT", "/projects/1",
            Body.value (JSON.object [("title", JSON.string "B")])⟩).1.projectList ≠
        [⟨1, "B", "", ""⟩] := by
  decide

/-! ## Delete -/

/-- C6: when some project of the store has ID `id`, Delete on ID `id` answers
204 with no body; the list splits as `pre ++ p :: post` at the first project
`p` with that ID and the new list is `pre ++ post`: one element shorter, a
sublist of the old list (the other projects unchanged, in the same order); the
counter is unchanged. -/
theorem delete_removes_first_match (s : Store) (path : String) (body : Body) (id : Int)
    (hpath : extractID path = some id) (hmem : ∃ p ∈ s.projectList, p.ID = id) :
    ∃ (pre : List Project) (p : Project) (post : List Project),
      s.projectList = pre ++ p :: post ∧ p.ID = id ∧ (∀ x ∈ pre, x.ID ≠ id) ∧
      deleteProject s ⟨"DELETE", path, body⟩ =
        ({ projectList := pre ++ post, nextProjectID := s.nextProjectID },
          { status := 204, body := Payload.empty }) ∧
      (pre ++ post).length + 1 = s.projectList.length ∧
      List.Sublist (pre ++ post) s.projectList := by
  obtain ⟨pre, p, post, hl, hp, hpre⟩ := exists_first_match hmem
  refine ⟨pre, p, post, hl, hp, hpre, ?_, ?_, ?_⟩
  · simp [deleteProject, hpath, hl, deleteLoop_split pre p post hp hpre]
  · simp [hl]; omega
  · rw [hl]
    exact List.Sublist.append_left (List.sublist_cons_self p post) pre

/-- Witness of C6: deleting project 2 from a store of three projects. -/
theorem delete_removes_first_match_witness :
    ∃ (pre : List Project) (p : Project) (post : List Project),
      [(⟨1, "A", "", "notstarted"⟩ : Project), ⟨2, "B", "", "notstarted"⟩,
          ⟨3, "C", "", "notstarted"⟩] = pre ++ p :: post ∧
      p.ID = 2 ∧ (∀ x ∈ pre, x.ID ≠ 2) ∧
      deleteProject
          ⟨[⟨1, "A", "", "notstarted"⟩, ⟨2, "B", "", "notstarted"⟩, ⟨3, "C", "", "notstarted"⟩], 4⟩
          ⟨"DELETE", "/projects/2", Body.malformed⟩ =
        ({ projectList := pre ++ post, nextProjectID := 4 },
          { status := 204, body := Payload.empty }) ∧
      (pre ++ post).length + 1 =
        [(⟨1, "A", "", "notstarted"⟩ : Project), ⟨2, "B", "", "notstarted"⟩,
          ⟨3, "C", "", "notstarted"⟩].length ∧
      List.Sublist (pre ++ post)
        [(⟨1, "A", "", "notstarted"⟩ : Project), ⟨2, "B", "", "notstarted"⟩,
          ⟨3, "C", "", "notstarted"⟩] :=
  delete_removes_first_match
    ⟨[⟨1, "A", "", "notstarted"⟩, ⟨2, "B", "", "notstarted"⟩, ⟨3, "C", "", "notstarted"⟩], 4⟩
    "/projects/2" Body.malformed 2 (by decide) ⟨⟨2, "B", "", "notstarted"⟩, by decide, rfl⟩

/-! ## The decode error path of Update -/

/-- C9, the code at the failing input: the body `{"id":7,"title":5}` sent to
project 1 is answered 400, and the project is left in the store with ID 7:
`Decode` has stored the `id` member before it reports the type error of the
`title` member, and the handler returns before it restores the ID. -/
theorem update_decode_error_changes_id :
    updateProject ⟨[⟨1, "A", "d", "notstarted"⟩], 2⟩
        ⟨"PUT", "/projects/1",
          Body.value (JSON.object [("id", JSON.integer 7), ("title", JSON.integer 5)])⟩ =
      (⟨[⟨7, "A", "d", "notstarted"⟩], 2⟩, httpError "Failed to decode request body" 400) := by
  decide

/-- C8, the code at the failing input: two Creates followed by an Update of
project 1 whose body `{"id":2,"title":true}` fails to decode reach a store that
holds two projects with ID 2. -/
theorem reachable_duplicate_ids :
    Reachable ⟨[⟨2, "", "", "notstarted"⟩, ⟨2, "", "", "notstarted"⟩], 3⟩ ∧
      ¬ (([⟨2, "", "", "notstarted"⟩, ⟨2, "", "", "notstarted"⟩] : List Project).map
          Project.ID).Nodup :=
  ⟨⟨[Call.createProject ⟨"POST", "/projects", Body.value (JSON.object [])⟩,
      Call.createProject ⟨"POST", "/projects", Body.value (JSON.object [])⟩,
      Call.updateProject ⟨"PUT", "/projects/1",
        Body.value (JSON.object [("id", JSON.integer 2), ("title", JSON.bool true)])⟩],
      by decide⟩,
    by decide⟩

/-- C7, the code at the failing input: a Create followed by an Update of
project 1 whose body `{"id":2,"title":true}` fails to decode reach the store
with the one project `{2, "", "", "notstarted"}` and counter 2. There Create
with body `{"title":"A"}` returns `{2, "A", "", "notstarted"}`, and Get on the
returned ID 2 right afterwards answers with the older project
`{2, "", "", "notstarted"}`. -/
theorem create_then_get_differs :
    Reachable ⟨[⟨2, "", "", "notstarted"⟩], 2⟩ ∧
      (createProject ⟨[⟨2, "", "", "notstarted"⟩], 2⟩
          ⟨"POST", "/projects", Body.value (JSON.object [("title", JSON.string "A")])⟩).2 =
        { status := 200, body := Payload.project ⟨2, "A", "", "notstarted"⟩ } ∧
      (getProject
          (createProject ⟨[⟨2, "", "", "notstarted"⟩], 2⟩
            ⟨"POST", "/projects", Body.value (JSON.object [("title", JSON.string "A")])⟩).1
          ⟨"GET", "/projects/2", Body.malformed⟩).2 =
        { status := 200, body := Payload.project ⟨2, "", "", "notstarted"⟩ } :=
  ⟨⟨[Call.createProject ⟨"POST", "/projects", Body.value (JSON.object [])⟩,
      Call.updateProject ⟨"PUT", "/projects/1",
        Body.value (JSON.object [("id", JSON.integer 2), ("title", JSON.bool true)])⟩],
      by decide⟩,
    by decide, by decide⟩

/-! ## `extractID` -/

theorem parseDigits_eq (ds : List Char) :
    ∀ acc : Nat, parseDigits ds acc =
      if ds.all (fun c => decide (48 ≤ c.toNat ∧ c.toNat ≤ 57)) = true then
        some (ds.foldl (fun acc c => acc * 10 + (c.toNat - 48)) acc)
      else none := by
  induction ds with
  | nil => intro acc; rfl
  | cons c cs ih =>
      intro acc
      by_cases hc : 48 ≤ c.toNat ∧ c.toNat ≤ 57
      · simp only [parseDigits, hc, and_self, if_true, ih, List.all_cons, List.foldl_cons,
          decide_True, Bool.true_and]
      · simp [parseDigits, hc]

theorem Atoi_eq_base10Int (t : List Char) : Atoi t = base10Int t := by
  cases t with
  | nil => rfl
  | cons c cs =>
      by_cases hs : c = '-' ∨ c = '+'
      · cases cs with
        | nil => simp [Atoi, base10Int, hs]
        | cons d ds =>
            simp only [Atoi, base10Int, hs, if_true, List.head?_cons, List.tail_cons,
              Option.some.injEq, parseDigits_eq]
            by_cases hall : (d :: ds).all (fun c => decide (48 ≤ c.toNat ∧ c.toNat ≤ 57)) = true
            · rw [if_pos hall, if_pos ⟨List.cons_ne_nil _ _, hall⟩]
              simp
            · rw [if_neg hall, if_neg (fun h => hall h.2)]
      · have h1 : c ≠ '-' := fun h => hs (Or.inl h)
        simp only [Atoi, base10Int, hs, if_false, List.head?_cons, Option.some.injEq,
          parseDigits_eq]
        by_cases hall : (c :: cs).all (fun c => decide (48 ≤ c.toNat ∧ c.toNat ≤ 57)) = true
        · rw [if_pos hall, if_pos ⟨List.cons_ne_nil _ _, hall⟩]
          simp [h1]
        · rw [if_neg hall, if_neg (fun h => hall h.2)]

theorem splitSlash_head (t : List Char) : ∃ tl, splitSlash t = firstSegment t :: tl := by
  induction t with
  | nil => exact ⟨[], rfl⟩
  | cons c cs ih =>
      obtain ⟨tl, htl⟩ := ih
      by_cases hc : c = '/'
      · exact ⟨splitSlash cs, by simp [splitSlash, firstSegment, hc]⟩
      · exact ⟨tl, by simp [splitSlash, firstSegment, hc, htl] ⟩

theorem extractID_projects (seg : String) :
    extractID ("/projects/" ++ seg) = Atoi (firstSegment seg.data) := by
  obtain ⟨tl, htl⟩ := splitSlash_head seg.data
  have hsplit : splitSlash ("/projects/" ++ seg).data =
      [] :: ['p', 'r', 'o', 'j', 'e', 'c', 't', 's'] :: firstSegment seg.data :: tl := by
    rw [String.data_append]
    simp [splitSlash, htl]
  unfold extractID
  rw [hsplit]
  simp

/-- C10, as the code has it: on a path `/projects/` followed by `seg`,
`extractID` reads the part of `seg` before its first `/` (all of `seg` when it
has none): it succeeds exactly when that part is a base-10 integer, and returns
its value. When that part is not a base-10 integer, Get, Update and Delete
answer 400 "Invalid project ID" and leave the store as it was. -/
theorem extractID_reads_first_segment (seg : String) (s : Store) (body : Body) :
    extractID ("/projects/" ++ seg) = base10Int (firstSegment seg.data) ∧
      (base10Int (firstSegment seg.data) = none →
        getProject s ⟨"GET", "/projects/" ++ seg, body⟩ =
            (s, httpError "Invalid project ID" 400) ∧
          updateProject s ⟨"PUT", "/projects/" ++ seg, body⟩ =
            (s, httpError "Invalid project ID" 400) ∧
          deleteProject s ⟨"DELETE", "/projects/" ++ seg, body⟩ =
            (s, httpError "Invalid project ID" 400)) := by
  have hx : extractID ("/projects/" ++ seg) = base10Int (firstSegment seg.data) := by
    rw [extractID_projects, Atoi_eq_base10Int]
  refine ⟨hx, fun hnone => ?_⟩
  rw [hnone] at hx
  refine ⟨?_, ?_, ?_⟩
  · simp [getProject, hx]
  · simp [updateProject, hx]
  · simp [deleteProject, hx]

/-- Witness of C10 as amended: `-12/x` is read as -12, and `abc` is answered
400 by the three handlers, the store unchanged. -/
theorem extractID_reads_first_segment_witness :
    extractID ("/projects/" ++ "-12/x") = some (-12) ∧
      getProject ⟨[⟨1, "A", "d", "notstarted"⟩], 2⟩ ⟨"GET", "/projects/" ++ "abc", Body.malformed⟩ =
        (⟨[⟨1, "A", "d", "notstarted"⟩], 2⟩, httpError "Invalid project ID" 400) ∧
      updateProject ⟨[⟨1, "A", "d", "notstarted"⟩], 2⟩
          ⟨"PUT", "/projects/" ++ "abc", Body.malformed⟩ =
        (⟨[⟨1, "A", "d", "notstarted"⟩], 2⟩, httpError "Invalid project ID" 400) ∧
      deleteProject ⟨[⟨1, "A", "d", "notstarted"⟩], 2⟩
          ⟨"DELETE", "/projects/" ++ "abc", Body.malformed⟩ =
        (⟨[⟨1, "A", "d", "notstarted"⟩], 2⟩, httpError "Invalid project ID" 400) :=
  ⟨(extractID_reads_first_segment "-12/x" Store.init Body.malformed).1.trans (by decide),
    (extractID_reads_first_segment "abc" ⟨[⟨1, "A", "d", "notstarted"⟩], 2⟩ Body.malformed).2
      (by decide)⟩

/-- Counterexample to C10 as stated: `1/x` as a whole is not a base-10 integer,
yet `extractID` succeeds on `/projects/1/x` with ID 1, and Get on that path
answers 200 with project 1. -/
theorem extractID_trailing_segment_counterexample :
    base10Int ['1', '/', 'x'] = none ∧
      extractID "/projects/1/x" = some 1 ∧
      getProject ⟨[⟨1, "A", "d", "notstarted"⟩], 2⟩ ⟨"GET", "/projects/1/x", Body.malformed⟩ =
        (⟨[⟨1, "A", "d", "notstarted"⟩], 2⟩,
          { status := 200, body := Payload.project ⟨1, "A", "d", "notstarted"⟩ }) := by
  decide

/-! ## Delete followed by Get -/

/-- C11, the code at the failing input: two Creates followed by an Update of
project 1 whose body `{"id":2,"title":true}` fails to decode reach a store with
two projects of ID 2. There Delete on ID 2 answers 204 and removes the first
of them only, and Get on ID 2 right afterwards answers 200 with the other. -/
theorem delete_then_get_found :
    Reachable ⟨[⟨2, "", "", "notstarted"⟩, ⟨2, "", "", "notstarted"⟩], 3⟩ ∧
      deleteProject ⟨[⟨2, "", "", "notstarted"⟩, ⟨2, "", "", "notstarted"⟩], 3⟩
          ⟨"DELETE", "/projects/2", Body.malformed⟩ =
        (⟨[⟨2, "", "", "notstarted"⟩], 3⟩, { status := 204, body := Payload.empty }) ∧
      getProject ⟨[⟨2, "", "", "notstarted"⟩], 3⟩ ⟨"GET", "/projects/2", Body.malformed⟩ =
        (⟨[⟨2, "", "", "notstarted"⟩], 3⟩,
          { status := 200, body := Payload.project ⟨2, "", "", "notstarted"⟩ }) :=
  ⟨⟨[Call.createProject ⟨"POST", "/projects", Body.value (JSON.object [])⟩,
      Call.createProject ⟨"POST", "/projects", Body.value (JSON.object [])⟩,
      Call.updateProject ⟨"PUT", "/projects/1",
        Body.value (JSON.object [("id", JSON.integer 2), ("title", JSON.bool true)])⟩],
      by decide⟩,
    by decide, by decide⟩

/-! ## Update with a complete body -/

/-- C12, as the code has it: when the store holds a project with ID `i` and the
body decodes without error and supplies the title `t`, the description `d` and
the status `st`, any string at all, Update on ID `i` answers 200 with the project
`{i, t, d, st}`, and that project is the one now stored at the position of the
first project with ID `i`. -/
theorem update_accepts_any_status (s : Store) (path : String) (body : Body) (i : Int)
    (t d st : String)
    (hpath : extractID path = some i) (hmem : ∃ p ∈ s.projectList, p.ID = i)
    (hdec : ∀ p : Project, (Decode body p).2 = false)
    (ht : suppliedString Field.title body = some t)
    (hd : suppliedString Field.description body = some d)
    (hst : suppliedString Field.status body = some st) :
    ∃ (pre : List Project) (p : Project) (post : List Project),
      s.projectList = pre ++ p :: post ∧ p.ID = i ∧ (∀ x ∈ pre, x.ID ≠ i) ∧
      updateProject s ⟨"PUT", path, body⟩ =
        ({ projectList := pre ++ ⟨i, t, d, st⟩ :: post, nextProjectID := s.nextProjectID },
          { status := 200, body := Payload.project ⟨i, t, d, st⟩ }) := by
  obtain ⟨pre, p, post, hl, hp, hpre⟩ := exists_first_match hmem
  refine ⟨pre, p, post, hl, hp, hpre, ?_⟩
  have hq : ({ (Decode body p).1 with ID := i } : Project) = ⟨i, t, d, st⟩ := by
    have h1 := Decode_title body p
    have h2 := Decode_description body p
    have h3 := Decode_status body p
    rw [ht] at h1
    rw [hd] at h2
    rw [hst] at h3
    simp only [Option.getD_some] at h1 h2 h3
    rw [← h1, ← h2, ← h3]
  rw [updateProject_split s path body i pre p post hpath hl hp hpre]
  simp [hdec p, hq]

/-- Witness of C12: the scenario `PUT /projects/1` with title "B", description
"d2" and status "completed", and the same with the status "whatever". -/
theorem update_accepts_any_status_witness :
    (∃ (pre : List Project) (p : Project) (post : List Project),
      [(⟨1, "A", "d", "notstarted"⟩ : Project)] = pre ++ p :: post ∧ p.ID = 1 ∧
      (∀ x ∈ pre, x.ID ≠ 1) ∧
      updateProject ⟨[⟨1, "A", "d", "notstarted"⟩], 2⟩
          ⟨"PUT", "/projects/1",
            Body.value (JSON.object [("title", JSON.string "B"),
              ("description", JSON.string "d2"), ("status", JSON.string "completed")])⟩ =
        ({ projectList := pre ++ ⟨1, "B", "d2", "completed"⟩ :: post, nextProjectID := 2 },
          { status := 200, body := Payload.project ⟨1, "B", "d2", "completed"⟩ })) ∧
    (∃ (pre : List Project) (p : Project) (post : List Project),
      [(⟨1, "A", "d", "notstarted"⟩ : Project)] = pre ++ p :: post ∧ p.ID = 1 ∧
      (∀ x ∈ pre, x.ID ≠ 1) ∧
      updateProject ⟨[⟨1, "A", "d", "notstarted"⟩], 2⟩
          ⟨"PUT", "/projects/1",
            Body.value (JSON.object [("title", JSON.string "B"),
              ("description", JSON.string "d2"), ("status", JSON.string "whatever")])⟩ =
        ({ projectList := pre ++ ⟨1, "B", "d2", "whatever"⟩ :: post, nextProjectID := 2 },
          { status := 200, body := Payload.project ⟨1, "B", "d2", "whatever"⟩ })) :=
  ⟨update_accepts_any_status ⟨[⟨1, "A", "d", "notstarted"⟩], 2⟩ "/projects/1"
      (Body.value (JSON.object [("title", JSON.string "B"),
        ("description", JSON.string "d2"), ("status", JSON.string "completed")])) 1
      "B" "d2" "completed" (by decide) ⟨⟨1, "A", "d", "notstarted"⟩, by decide, rfl⟩
      (fun _ => rfl) (by decide) (by decide) (by decide),
    update_accepts_any_status ⟨[⟨1, "A", "d", "notstarted"⟩], 2⟩ "/projects/1"
      (Body.value (JSON.object [("title", JSON.string "B"),
        ("description", JSON.string "d2"), ("status", JSON.string "whatever")])) 1
      "B" "d2" "whatever" (by decide) ⟨⟨1, "A", "d", "notstarted"⟩, by decide, rfl⟩
      (fun _ => rfl) (by decide) (by decide) (by decide)⟩

/-- Counterexample to C12 as stated: the body
`{"title":"B","description":"d2","status":"completed","id":"x"}` supplies a
title, a description and a status, yet Update on project 1 answers 400: the
`id` member has the wrong type. -/
theorem update_supplied_fields_counterexample :
    suppliedString Field.title
        (Body.value (JSON.object [("title", JSON.string "B"), ("description", JSON.string "d2"),
          ("status", JSON.string "completed"), ("id", JSON.string "x")])) = some "B" ∧
      suppliedString Field.description
        (Body.value (JSON.object [("title", JSON.string "B"), ("description", JSON.string "d2"),
          ("status", JSON.string "completed"), ("id", JSON.string "x")])) = some "d2" ∧
      suppliedString Field.status
        (Body.value (JSON.object [("title", JSON.string "B"), ("description", JSON.string "d2"),
          ("status", JSON.string "completed"), ("id", JSON.string "x")])) = some "completed" ∧
      (updateProject ⟨[⟨1, "A", "d", "notstarted"⟩], 2⟩
          ⟨"PUT", "/projects/1",
            Body.value (JSON.object [("title", JSON.string "B"),
              ("description", JSON.string "d2"), ("status", JSON.string "completed"),
              ("id", JSON.string "x")])⟩).2 =
        httpError "Failed to decode request body" 400 := by
  decide

/-! ## Create appends -/

/-- C13, as the code has it: for every store and every body, parsable or not,
Create answers 200 with a project `q`, the new list is the old list followed
by `q`, and the title and the description of `q` are the strings the body
supplies, the empty string when it supplies none. The counter, a 64-bit `int`,
grows by exactly one as long as it is below the largest `int`, 2^63 - 1; from
2^63 - 1 it wraps to -2^63. -/
theorem create_appends (s : Store) (path : String) (body : Body) :
    (∃ q : Project,
      (createProject s ⟨"POST", path, body⟩).2 =
        { status := 200, body := Payload.project q } ∧
      (createProject s ⟨"POST", path, body⟩).1.projectList = s.projectList ++ [q] ∧
      q.Title = (suppliedString Field.title body).getD "" ∧
      q.Description = (suppliedString Field.description body).getD "") ∧
    (-(2 ^ 63) ≤ s.nextProjectID → s.nextProjectID < 2 ^ 63 - 1 →
      (createProject s ⟨"POST", path, body⟩).1.nextProjectID = s.nextProjectID + 1) ∧
    (s.nextProjectID = 2 ^ 63 - 1 →
      (createProject s ⟨"POST", path, body⟩).1.nextProjectID = -(2 ^ 63)) := by
  rw [createProject_post s _ rfl]
  refine ⟨⟨{ (Decode body zeroProject).1 with ID := s.nextProjectID, Status := "notstarted" },
    rfl, rfl, Decode_title body zeroProject, Decode_description body zeroProject⟩, ?_, ?_⟩
  · intro hlo hhi
    exact wrapInt_eq (by omega) (by omega)
  · intro hmax
    simp only [hmax]
    decide

/-- Witness of C13 as amended: Create with a body that cannot be parsed on the
store after one Create, where the counter goes from 2 to 3, and on a store
whose counter is 2^63 - 1, where it goes to -2^63. -/
theorem create_appends_witness :
    (∃ q : Project,
      (createProject ⟨[⟨1, "A", "d", "notstarted"⟩], 2⟩
          ⟨"POST", "/projects", Body.malformed⟩).2 =
        { status := 200, body := Payload.project q } ∧
      (createProject ⟨[⟨1, "A", "d", "notstarted"⟩], 2⟩
          ⟨"POST", "/projects", Body.malformed⟩).1.projectList =
        [⟨1, "A", "d", "notstarted"⟩] ++ [q] ∧
      q.Title = (suppliedString Field.title Body.malformed).getD "" ∧
      q.Description = (suppliedString Field.description Body.malformed).getD "") ∧
    (createProject ⟨[⟨1, "A", "d", "notstarted"⟩], 2⟩
        ⟨"POST", "/projects", Body.malformed⟩).1.nextProjectID = 2 + 1 ∧
    (createProject ⟨[⟨1, "A", "d", "notstarted"⟩], 2 ^ 63 - 1⟩
        ⟨"POST", "/projects", Body.malformed⟩).1.nextProjectID = -(2 ^ 63) :=
  ⟨(create_appends ⟨[⟨1, "A", "d", "notstarted"⟩], 2⟩ "/projects" Body.malformed).1,
    (create_appends ⟨[⟨1, "A", "d", "notstarted"⟩], 2⟩ "/projects" Body.malformed).2.1
      (by decide) (by decide),
    (create_appends ⟨[⟨1, "A", "d", "notstarted"⟩], 2 ^ 63 - 1⟩ "/projects"
      Body.malformed).2.2 rfl⟩

/-- Counterexample to C13 as stated: when the counter is the largest `int`,
2^63 - 1, Create hands out that ID and the counter wraps to -2^63 instead of
growing by one. -/
theorem create_counter_wraps_counterexample :
    createProject ⟨[], 9223372036854775807⟩ ⟨"POST", "/projects", Body.value (JSON.object [])⟩ =
      (⟨[⟨9223372036854775807, "", "", "notstarted"⟩], -9223372036854775808⟩,
        { status := 200,
          body := Payload.project ⟨9223372036854775807, "", "", "notstarted"⟩ }) := by
  decide

/-! ## Get and List -/

/-- C14: when some project of the store has ID `id`, Get on ID `id` answers 200
with the first project of the list that has this ID, and List answers 200 with
the whole list in its stored order; both leave the list and the counter as
they were. -/
theorem get_returns_first_match (s : Store) (path listPath : String) (body listBody : Body)
    (id : Int) (hpath : extractID path = some id) (hmem : ∃ p ∈ s.projectList, p.ID = id) :
    ∃ (pre : List Project) (p : Project) (post : List Project),
      s.projectList = pre ++ p :: post ∧ p.ID = id ∧ (∀ x ∈ pre, x.ID ≠ id) ∧
      getProject s ⟨"GET", path, body⟩ = (s, { status := 200, body := Payload.project p }) ∧
      getProjects s ⟨"GET", listPath, listBody⟩ =
        (s, { status := 200, body := Payload.projects s.projectList }) := by
  obtain ⟨pre, p, post, hl, hp, hpre⟩ := exists_first_match hmem
  refine ⟨pre, p, post, hl, hp, hpre, ?_, ?_⟩
  · simp [getProject, hpath, hl, getLoop_split pre p post hp hpre]
  · simp [getProjects]

/-- Witness of C14: Get on ID 2 in a store of three projects. -/
theorem get_returns_first_match_witness :
    ∃ (pre : List Project) (p : Project) (post : List Project),
      [(⟨1, "A", "", "notstarted"⟩ : Project), ⟨2, "B", "", "notstarted"⟩,
          ⟨3, "C", "", "notstarted"⟩] = pre ++ p :: post ∧
      p.ID = 2 ∧ (∀ x ∈ pre, x.ID ≠ 2) ∧
      getProject
          ⟨[⟨1, "A", "", "notstarted"⟩, ⟨2, "B", "", "notstarted"⟩, ⟨3, "C", "", "notstarted"⟩], 4⟩
          ⟨"GET", "/projects/2", Body.malformed⟩ =
        (⟨[⟨1, "A", "", "notstarted"⟩, ⟨2, "B", "", "notstarted"⟩,
            ⟨3, "C", "", "notstarted"⟩], 4⟩,
          { status := 200, body := Payload.project p }) ∧
      getProjects
          ⟨[⟨1, "A", "", "notstarted"⟩, ⟨2, "B", "", "notstarted"⟩, ⟨3, "C", "", "notstarted"⟩], 4⟩
          ⟨"GET", "/projects", Body.malformed⟩ =
        (⟨[⟨1, "A", "", "notstarted"⟩, ⟨2, "B", "", "notstarted"⟩,
            ⟨3, "C", "", "notstarted"⟩], 4⟩,
          { status := 200,
            body := Payload.projects [⟨1, "A", "", "notstarted"⟩, ⟨2, "B", "", "notstarted"⟩,
              ⟨3, "C", "", "notstarted"⟩] }) :=
  get_returns_first_match
    ⟨[⟨1, "A", "", "notstarted"⟩, ⟨2, "B", "", "notstarted"⟩, ⟨3, "C", "", "notstarted"⟩], 4⟩
    "/projects/2" "/projects" Body.malformed Body.malformed 2 (by decide)
    ⟨⟨2, "B", "", "notstarted"⟩, by decide, rfl⟩

/-! ## Routing -/

theorem updateLoop_status (id : Int) (body : Body) (l : List Project) :
    ∀ res, updateLoop id body l = some res → res.2.status = 200 ∨ res.2.status = 400 := by
  induction l with
  | nil => intro res h; simp [updateLoop] at h
  | cons p rest ih =>
      intro res h
      by_cases hp : p.ID = id
      · by_cases hd : (Decode body p).2 = true
        · simp [updateLoop, hp, hd] at h
          subst h
          right; rfl
        · simp [updateLoop, hp, hd] at h
          subst h
          left; rfl
      · simp only [updateLoop, hp, if_false] at h
        cases hrec : updateLoop id body rest with
        | none => simp [hrec] at h
        | some res2 =>
            obtain ⟨l2, resp2⟩ := res2
            simp [hrec] at h
            subst h
            exact ih (l2, resp2) hrec

theorem getProjects_get (s : Store) (r : Request) (hm : r.Method = "GET") :
    getProjects s r = (s, { status := 200, body := Payload.projects s.projectList }) := by
  simp [getProjects, hm]

theorem getProject_status (s : Store) (r : Request) (hm : r.Method = "GET") :
    (getProject s r).2.status ≠ 405 := by
  simp only [getProject, hm, ne_eq, not_true_eq_false, if_false]
  cases extractID r.Path with
  | none => simp [httpError]
  | some id =>
      cases hloop : getLoop id s.projectList <;> simp [hloop, httpError]

theorem updateProject_status (s : Store) (r : Request) (hm : r.Method = "PUT") :
    (updateProject s r).2.status ≠ 405 := by
  simp only [updateProject, hm, ne_eq, not_true_eq_false, if_false]
  cases extractID r.Path with
  | none => simp [httpError]
  | some id =>
      cases hloop : updateLoop id r.Body s.projectList with
      | none => simp [hloop, httpError]
      | some res =>
          obtain ⟨l, resp⟩ := res
          have hst := updateLoop_status id r.Body s.projectList (l, resp) hloop
          simp only [hloop]
          intro h405
          simp only [h405] at hst
          omega

theorem deleteProject_status (s : Store) (r : Request) (hm : r.Method = "DELETE") :
    (deleteProject s r).2.status ≠ 405 := by
  simp only [deleteProject, hm, ne_eq, not_true_eq_false, if_false]
  cases extractID r.Path with
  | none => simp [httpError]
  | some id =>
      cases hloop : deleteLoop id s.projectList <;> simp [hloop, httpError]

theorem handleProjects_cases (s : Store) (r : Request) :
    (handleProjects s r = (s, httpError "Method not allowed" 405) ∧
        r.Method ≠ "GET" ∧ r.Method ≠ "POST") ∨
      (handleProjects s r).2.status = 200 := by
  unfold handleProjects
  by_cases hg : r.Method = "GET"
  · right; simp [hg, getProjects]
  · by_cases hp : r.Method = "POST"
    · right; simp [hg, hp, createProject]
    · left; simp [hg, hp]

theorem handleProjectByID_cases (s : Store) (r : Request) :
    (handleProjectByID s r = (s, httpError "Method not allowed" 405) ∧
        r.Method ≠ "GET" ∧ r.Method ≠ "PUT" ∧ r.Method ≠ "DELETE") ∨
      (handleProjectByID s r).2.status ≠ 405 := by
  unfold handleProjectByID
  by_cases hg : r.Method = "GET"
  · right; simp only [hg, if_true]; exact getProject_status s r hg
  · by_cases hp : r.Method = "PUT"
    · right; simp only [hg, hp, if_true, if_false]; exact updateProject_status s r hp
    · by_cases hd : r.Method = "DELETE"
      · right; simp only [hg, hp, hd, if_true, if_false]; exact deleteProject_status s r hd
      · left; simp [hg, hp, hd]

/-- C15: the handler registered for `/projects` runs List on GET and Create on
POST and answers 405 "Method not allowed" on every other method; the handler
registered for `/projects/` runs Get on GET, Update on PUT and Delete on DELETE
and answers 405 on every other method. The method check inside the handler
that is run never fails (no answer is "Invalid request method"), and a 405
answer leaves the store as it was. -/
theorem router_dispatch (s : Store) (m path : String) (body : Body) :
    handleProjects s ⟨"GET", path, body⟩ =
        (s, { status := 200, body := Payload.projects s.projectList }) ∧
      handleProjects s ⟨"POST", path, body⟩ = createProject s ⟨"POST", path, body⟩ ∧
      (createProject s ⟨"POST", path, body⟩).2.status = 200 ∧
      handleProjectByID s ⟨"GET", path, body⟩ = getProject s ⟨"GET", path, body⟩ ∧
      handleProjectByID s ⟨"PUT", path, body⟩ = updateProject s ⟨"PUT", path, body⟩ ∧
      handleProjectByID s ⟨"DELETE", path, body⟩ = deleteProject s ⟨"DELETE", path, body⟩ ∧
      (m ≠ "GET" → m ≠ "POST" →
        handleProjects s ⟨m, path, body⟩ = (s, httpError "Method not allowed" 405)) ∧
      (m ≠ "GET" → m ≠ "PUT" → m ≠ "DELETE" →
        handleProjectByID s ⟨m, path, body⟩ = (s, httpError "Method not allowed" 405)) ∧
      (handleProjects s ⟨m, path, body⟩).2 ≠ httpError "Invalid request method" 405 ∧
      (handleProjectByID s ⟨m, path, body⟩).2 ≠ httpError "Invalid request method" 405 ∧
      ((handleProjects s ⟨m, path, body⟩).2.status = 405 →
        (handleProjects s ⟨m, path, body⟩).1 = s) ∧
      ((handleProjectByID s ⟨m, path, body⟩).2.status = 405 →
        (handleProjectByID s ⟨m, path, body⟩).1 = s) := by
  refine ⟨?_, ?_, ?_, ?_, ?_, ?_, ?_, ?_, ?_, ?_, ?_, ?_⟩
  · simp [handleProjects, getProjects]
  · simp [handleProjects]
  · rw [createProject_post s _ rfl]
  · simp [handleProjectByID]
  · simp [handleProjectByID]
  · simp [handleProjectByID]
  · intro hg hp
    simp [handleProjects, hg, hp]
  · intro hg hp hd
    simp [handleProjectByID, hg, hp, hd]
  · rcases handleProjects_cases s ⟨m, path, body⟩ with ⟨h, _⟩ | h
    · rw [h]; simp [httpError]
    · intro hbad
      rw [hbad] at h
      simp [httpError] at h
  · rcases handleProjectByID_cases s ⟨m, path, body⟩ with ⟨h, _⟩ | h
    · rw [h]; simp [httpError]
    · intro hbad
      rw [hbad] at h
      simp [httpError] at h
  · intro h405
    rcases handleProjects_cases s ⟨m, path, body⟩ with ⟨h, _⟩ | h
    · rw [h]
    · rw [h] at h405
      omega
  · intro h405
    rcases handleProjectByID_cases s ⟨m, path, body⟩ with ⟨h, _⟩ | h
    · rw [h]
    · exact absurd h405 h

/-- Witness of C15: PATCH is answered 405 on both routes, the store unchanged. -/
theorem router_dispatch_witness :
    handleProjects ⟨[⟨1, "A", "d", "notstarted"⟩], 2⟩ ⟨"PATCH", "/projects", Body.malformed⟩ =
        (⟨[⟨1, "A", "d", "notstarted"⟩], 2⟩, httpError "Method not allowed" 405) ∧
      handleProjectByID ⟨[⟨1, "A", "d", "notstarted"⟩], 2⟩
          ⟨"PATCH", "/projects", Body.malformed⟩ =
        (⟨[⟨1, "A", "d", "notstarted"⟩], 2⟩, httpError "Method not allowed" 405) :=
  ⟨(router_dispatch ⟨[⟨1, "A", "d", "notstarted"⟩], 2⟩ "PATCH" "/projects"
      Body.malformed).2.2.2.2.2.2.1 (by decide) (by decide),
    (router_dispatch ⟨[⟨1, "A", "d", "notstarted"⟩], 2⟩ "PATCH" "/projects"
      Body.malformed).2.2.2.2.2.2.2.1 (by decide) (by decide) (by decide)⟩

/-! ## The frame of Update -/

theorem firstIndex_split {id : Int} (pre : List Project) (p : Project) (post : List Project)
    (hp : p.ID = id) (hpre : ∀ q ∈ pre, q.ID ≠ id) :
    firstIndex id (pre ++ p :: post) = pre.length := by
  induction pre with
  | nil => simp [firstIndex, List.findIdx_cons, hp]
  | cons a pre ih =>
      have ha : a.ID ≠ id := hpre a (List.mem_cons_self _ _)
      have hrest : ∀ q ∈ pre, q.ID ≠ id := fun q hq => hpre q (List.mem_cons_of_mem _ hq)
      have := ih hrest
      simp only [firstIndex] at this
      simp [firstIndex, List.findIdx_cons, ha, this]

theorem get?_replace (pre : List Project) (p q : Project) (post : List Project) :
    ∀ k : Nat, k ≠ pre.length → (pre ++ q :: post).get? k = (pre ++ p :: post).get? k := by
  induction pre with
  | nil =>
      intro k hk
      cases k with
      | zero => exact absurd rfl hk
      | succ k => simp
  | cons a pre ih =>
      intro k hk
      cases k with
      | zero => simp
      | succ k =>
          have := ih k (fun h => hk (by simp [h]))
          simpa using this

/-- What `updateProject` does to the store on a path that names ID `id`: nothing
when no project has that ID, and otherwise it replaces the first project with
that ID by some project. -/
theorem updateProject_shape (s : Store) (path : String) (body : Body) (id : Int)
    (hpath : extractID path = some id) :
    (updateProject s ⟨"PUT", path, body⟩).1 = s ∨
      ∃ (pre : List Project) (p q : Project) (post : List Project),
        s.projectList = pre ++ p :: post ∧ p.ID = id ∧ (∀ x ∈ pre, x.ID ≠ id) ∧
        (updateProject s ⟨"PUT", path, body⟩).1 =
          { projectList := pre ++ q :: post, nextProjectID := s.nextProjectID } := by
  by_cases hmem : ∃ p ∈ s.projectList, p.ID = id
  · right
    obtain ⟨pre, p, post, hl, hp, hpre⟩ := exists_first_match hmem
    rw [updateProject_split s path body id pre p post hpath hl hp hpre]
    by_cases hd : (Decode body p).2 = true
    · exact ⟨pre, p, (Decode body p).1, post, hl, hp, hpre, by simp [hd]⟩
    · exact ⟨pre, p, { (Decode body p).1 with ID := id }, post, hl, hp, hpre, by simp [hd]⟩
  · left
    have hid : ∀ p ∈ s.projectList, p.ID ≠ id := fun p hp h => hmem ⟨p, hp, h⟩
    simp [updateProject, hpath, updateLoop_eq_none body hid]

/-- C16: for every store, ID and body, after Update the list has the length it
had, the counter is unchanged, and the project at every position other than
that of the first project with the ID is the project that was there before. -/
theorem update_frame (s : Store) (path : String) (body : Body) (id : Int)
    (hpath : extractID path = some id) :
    (updateProject s ⟨"PUT", path, body⟩).1.projectList.length = s.projectList.length ∧
      (updateProject s ⟨"PUT", path, body⟩).1.nextProjectID = s.nextProjectID ∧
      ∀ k : Nat, k ≠ firstIndex id s.projectList →
        (updateProject s ⟨"PUT", path, body⟩).1.projectList.get? k = s.projectList.get? k := by
  rcases updateProject_shape s path body id hpath with h | ⟨pre, p, q, post, hl, hp, hpre, h⟩
  · rw [h]
    exact ⟨rfl, rfl, fun _ _ => rfl⟩
  · rw [h, hl]
    refine ⟨by simp, rfl, fun k hk => ?_⟩
    rw [firstIndex_split pre p post hp hpre] at hk
    exact get?_replace pre p q post k hk

/-- Witness of C16: an Update of project 2 in a store of three projects, with a
body that fails to decode after it has stored a title. -/
theorem update_frame_witness :
    (updateProject
        ⟨[⟨1, "A", "", "notstarted"⟩, ⟨2, "B", "", "notstarted"⟩, ⟨3, "C", "", "notstarted"⟩], 4⟩
        ⟨"PUT", "/projects/2",
          Body.value (JSON.object [("title", JSON.string "X"),
            ("status", JSON.integer 0)])⟩).1.projectList.length =
        [(⟨1, "A", "", "notstarted"⟩ : Project), ⟨2, "B", "", "notstarted"⟩,
          ⟨3, "C", "", "notstarted"⟩].length ∧
      (updateProject
        ⟨[⟨1, "A", "", "notstarted"⟩, ⟨2, "B", "", "notstarted"⟩, ⟨3, "C", "", "notstarted"⟩], 4⟩
        ⟨"PUT", "/projects/2",
          Body.value (JSON.object [("title", JSON.string "X"),
            ("status", JSON.integer 0)])⟩).1.nextProjectID = 4 ∧
      ∀ k : Nat,
        k ≠ firstIndex 2 [⟨1, "A", "", "notstarted"⟩, ⟨2, "B", "", "notstarted"⟩,
          ⟨3, "C", "", "notstarted"⟩] →
        (updateProject
          ⟨[⟨1, "A", "", "notstarted"⟩, ⟨2, "B", "", "notstarted"⟩,
            ⟨3, "C", "", "notstarted"⟩], 4⟩
          ⟨"PUT", "/projects/2",
            Body.value (JSON.object [("title", JSON.string "X"),
              ("status", JSON.integer 0)])⟩).1.projectList.get? k =
          [(⟨1, "A", "", "notstarted"⟩ : Project), ⟨2, "B", "", "notstarted"⟩,
            ⟨3, "C", "", "notstarted"⟩].get? k :=
  update_frame
    ⟨[⟨1, "A", "", "notstarted"⟩, ⟨2, "B", "", "notstarted"⟩, ⟨3, "C", "", "notstarted"⟩], 4⟩
    "/projects/2"
    (Body.value (JSON.object [("title", JSON.string "X"), ("status", JSON.integer 0)])) 2
    (by decide)

/-! ## Update answered 400 -/

theorem Decode_not_object (body : Body) (p : Project)
    (h : ∀ kvs, body ≠ Body.value (JSON.object kvs)) : (Decode body p).1 = p := by
  cases body with
  | malformed => rfl
  | value j =>
      cases j with
      | object kvs => exact absurd rfl (h kvs)
      | _ => rfl

/-- C17, as the code has it: when the store holds a project with ID `i` and
Update on ID `i` answers 400 "Failed to decode request body", the counter and
all projects but the matched one are unchanged, and the list keeps its length
and order. The matched project is unchanged too when the body is not a JSON
object; when it is one, the title, the description and the status of the
matched project are each the string the body supplies for that field when it
supplies one, and the previous value otherwise. -/
theorem update_failure_effect (s : Store) (path : String) (body : Body) (i : Int)
    (hpath : extractID path = some i) (hmem : ∃ p ∈ s.projectList, p.ID = i)
    (hfail : (updateProject s ⟨"PUT", path, body⟩).2 =
      httpError "Failed to decode request body" 400) :
    ∃ (pre : List Project) (p : Project) (post : List Project) (q : Project),
      s.projectList = pre ++ p :: post ∧ p.ID = i ∧ (∀ x ∈ pre, x.ID ≠ i) ∧
      (updateProject s ⟨"PUT", path, body⟩).1 =
        { projectList := pre ++ q :: post, nextProjectID := s.nextProjectID } ∧
      q.Title = (suppliedString Field.title body).getD p.Title ∧
      q.Description = (suppliedString Field.description body).getD p.Description ∧
      q.Status = (suppliedString Field.status body).getD p.Status ∧
      ((∀ kvs, body ≠ Body.value (JSON.object kvs)) → q = p) := by
  obtain ⟨pre, p, post, hl, hp, hpre⟩ := exists_first_match hmem
  refine ⟨pre, p, post, (Decode body p).1, hl, hp, hpre, ?_, Decode_title body p,
    Decode_description body p, Decode_status body p, Decode_not_object body p⟩
  rw [updateProject_split s path body i pre p post hpath hl hp hpre] at hfail ⊢
  by_cases hd : (Decode body p).2 = true
  · simp [hd]
  · simp [hd, httpError] at hfail

/-- Witness of C17 as amended: project 1 and the body
`{"title":"X","description":5}`, which is answered 400. -/
theorem update_failure_effect_witness :
    ∃ (pre : List Project) (p : Project) (post : List Project) (q : Project),
      [(⟨1, "A", "d", "notstarted"⟩ : Project)] = pre ++ p :: post ∧ p.ID = 1 ∧
      (∀ x ∈ pre, x.ID ≠ 1) ∧
      (updateProject ⟨[⟨1, "A", "d", "notstarted"⟩], 2⟩
          ⟨"PUT", "/projects/1",
            Body.value (JSON.object [("title", JSON.string "X"),
              ("description", JSON.integer 5)])⟩).1 =
        { projectList := pre ++ q :: post, nextProjectID := 2 } ∧
      q.Title =
        (suppliedString Field.title
          (Body.value (JSON.object [("title", JSON.string "X"),
            ("description", JSON.integer 5)]))).getD p.Title ∧
      q.Description =
        (suppliedString Field.description
          (Body.value (JSON.object [("title", JSON.string "X"),
            ("description", JSON.integer 5)]))).getD p.Description ∧
      q.Status =
        (suppliedString Field.status
          (Body.value (JSON.object [("title", JSON.string "X"),
            ("description", JSON.integer 5)]))).getD p.Status ∧
      ((∀ kvs, Body.value (JSON.object [("title", JSON.string "X"),
          ("description", JSON.integer 5)]) ≠ Body.value (JSON.object kvs)) → q = p) :=
  update_failure_effect ⟨[⟨1, "A", "d", "notstarted"⟩], 2⟩ "/projects/1"
    (Body.value (JSON.object [("title", JSON.string "X"), ("description", JSON.integer 5)])) 1
    (by decide) ⟨⟨1, "A", "d", "notstarted"⟩, by decide, rfl⟩ (by decide)

/-- Counterexample to C17 as stated: Update of project 1 with the body
`{"title":"X","description":5}` answers 400, and the title of the stored
project has changed from "A" to "X". -/
theorem update_failure_not_atomic_counterexample :
    updateProject ⟨[⟨1, "A", "d", "notstarted"⟩], 2⟩
        ⟨"PUT", "/projects/1",
          Body.value (JSON.object [("title", JSON.string "X"),
            ("description", JSON.integer 5)])⟩ =
      (⟨[⟨1, "X", "d", "notstarted"⟩], 2⟩, httpError "Failed to decode request body" 400) ∧
    (updateProject ⟨[⟨1, "A", "d", "notstarted"⟩], 2⟩
        ⟨"PUT", "/projects/1",
          Body.value (JSON.object [("title", JSON.string "X"),
            ("description", JSON.integer 5)])⟩).1 ≠ ⟨[⟨1, "A", "d", "notstarted"⟩], 2⟩ := by
  decide

/-! ## The order of the list -/

theorem ascending_of_ids {s s2 : Store}
    (hids : s2.projectList.map Project.ID = s.projectList.map Project.ID)
    (hnext : s2.nextProjectID = s.nextProjectID) (h : AscendingBelowCounter s) :
    AscendingBelowCounter s2 := by
  refine ⟨by rw [hids]; exact h.1, fun p hp => ?_⟩
  have hmem : p.ID ∈ s.projectList.map Project.ID := by
    rw [← hids]; exact List.mem_map_of_mem _ hp
  obtain ⟨p0, hp0, hp0id⟩ := List.mem_map.mp hmem
  rw [hnext, ← hp0id]
  exact h.2 p0 hp0

theorem ascending_of_sublist {s s2 : Store} (hsub : s2.projectList.Sublist s.projectList)
    (hnext : s2.nextProjectID = s.nextProjectID) (h : AscendingBelowCounter s) :
    AscendingBelowCounter s2 := by
  refine ⟨h.1.sublist (hsub.map Project.ID), fun p hp => ?_⟩
  rw [hnext]
  exact h.2 p (hsub.subset hp)

theorem ascending_create (s : Store) (r : Request) (hm : r.Method = "POST")
    (h : AscendingBelowCounter s) (hlo : 1 ≤ s.nextProjectID)
    (hhi : s.nextProjectID + 1 ≤ 2 ^ 63 - 1) :
    AscendingBelowCounter (createProject s r).1 ∧
      (createProject s r).1.nextProjectID = s.nextProjectID + 1 := by
  rw [createProject_post s r hm, wrapInt_eq (by omega) (by omega)]
  refine ⟨⟨?_, ?_⟩, rfl⟩
  · simp only [List.map_append, List.map_cons, List.map_nil]
    rw [List.pairwise_append]
    refine ⟨h.1, List.pairwise_singleton _ _, ?_⟩
    intro a ha b hb
    obtain ⟨p0, hp0, hp0id⟩ := List.mem_map.mp ha
    rw [List.mem_singleton] at hb
    rw [hb, ← hp0id]
    exact (h.2 p0 hp0).2
  · intro p hp
    rcases List.mem_append.mp hp with hold | hnew
    · have := h.2 p hold
      simp only
      omega
    · rw [List.mem_singleton] at hnew
      rw [hnew]
      simp only
      omega

theorem updateLoop_ids (id : Int) (body : Body)
    (hdec : ∀ p : Project, (Decode body p).2 = false) (l : List Project) :
    ∀ res, updateLoop id body l = some res → res.1.map Project.ID = l.map Project.ID := by
  induction l with
  | nil => intro res h; simp [updateLoop] at h
  | cons p rest ih =>
      intro res h
      by_cases hp : p.ID = id
      · simp [updateLoop, hp, hdec p] at h
        subst h
        simp [hp]
      · simp only [updateLoop, hp, if_false] at h
        cases hrec : updateLoop id body rest with
        | none => simp [hrec] at h
        | some res2 =>
            obtain ⟨l2, resp2⟩ := res2
            simp [hrec] at h
            subst h
            have := ih (l2, resp2) hrec
            simpa using this

theorem updateProject_ids (s : Store) (r : Request)
    (hdec : ∀ p : Project, (Decode r.Body p).2 = false) :
    (updateProject s r).1.projectList.map Project.ID = s.projectList.map Project.ID := by
  unfold updateProject
  split
  · rfl
  · cases extractID r.Path with
    | none => rfl
    | some id =>
        cases hloop : updateLoop id r.Body s.projectList with
        | none => simp only [hloop]
        | some res =>
            obtain ⟨l, resp⟩ := res
            simp only [hloop]
            exact updateLoop_ids id r.Body hdec s.projectList (l, resp) hloop

theorem deleteLoop_sublist (id : Int) (l : List Project) :
    ∀ l2, deleteLoop id l = some l2 → l2.Sublist l := by
  induction l with
  | nil => intro l2 h; simp [deleteLoop] at h
  | cons p rest ih =>
      intro l2 h
      by_cases hp : p.ID = id
      · simp [deleteLoop, hp] at h
        subst h
        exact List.sublist_cons_self p rest
      · simp only [deleteLoop, hp, if_false] at h
        cases hrec : deleteLoop id rest with
        | none => simp [hrec] at h
        | some l3 =>
            simp [hrec] at h
            subst h
            exact (ih l3 hrec).cons₂ p

theorem deleteProject_sublist (s : Store) (r : Request) :
    (deleteProject s r).1.projectList.Sublist s.projectList := by
  unfold deleteProject
  split
  · exact List.Sublist.refl _
  · cases extractID r.Path with
    | none => exact List.Sublist.refl _
    | some id =>
        cases hloop : deleteLoop id s.projectList with
        | none =>
            simp only [hloop]
            exact List.Sublist.refl _
        | some l =>
            simp only [hloop]
            exact deleteLoop_sublist id s.projectList l hloop

theorem ascending_runCalls (t : List Call) :
    ∀ s : Store, UpdatesDecode t → AscendingBelowCounter s → 1 ≤ s.nextProjectID →
      s.nextProjectID + (creates t : Int) ≤ 2 ^ 63 - 1 →
      AscendingBelowCounter (runCalls s t) := by
  induction t with
  | nil => intro s _ h _ _; exact h
  | cons c t ih =>
      intro s hdec h hlo hhi
      have hdect : UpdatesDecode t := fun r hr => hdec r (List.mem_cons_of_mem _ hr)
      cases c with
      | createProject r =>
          by_cases hm : r.Method = "POST"
          · have hc : creates (Call.createProject r :: t) = creates t + 1 := by
              simp [creates, Call.isCreate, hm]
            rw [hc] at hhi
            push_cast at hhi
            obtain ⟨hinv, hnext⟩ := ascending_create s r hm h hlo (by omega)
            exact ih (createProject s r).1 hdect hinv (by rw [hnext]; omega)
              (by rw [hnext]; omega)
          · have hc : creates (Call.createProject r :: t) = creates t := by
              simp [creates, Call.isCreate, hm]
            rw [hc] at hhi
            have hs : (createProject s r).1 = s := by rw [createProject_not_post s r hm]
            show AscendingBelowCounter (runCalls (createProject s r).1 t)
            rw [hs]
            exact ih s hdect h hlo hhi
      | getProjects r =>
          have hc : creates (Call.getProjects r :: t) = creates t := by
            simp [creates, Call.isCreate]
          rw [hc] at hhi
          show AscendingBelowCounter (runCalls (getProjects s r).1 t)
          rw [getProjects_store]
          exact ih s hdect h hlo hhi
      | getProject r =>
          have hc : creates (Call.getProject r :: t) = creates t := by
            simp [creates, Call.isCreate]
          rw [hc] at hhi
          show AscendingBelowCounter (runCalls (getProject s r).1 t)
          rw [getProject_store]
          exact ih s hdect h hlo hhi
      | updateProject r =>
          have hc : creates (Call.updateProject r :: t) = creates t := by
            simp [creates, Call.isCreate]
          rw [hc] at hhi
          have hn := updateProject_counter s r
          have hids := updateProject_ids s r (hdec r (List.mem_cons_self _ _))
          exact ih (updateProject s r).1 hdect (ascending_of_ids hids hn h) (by rw [hn]; exact hlo)
            (by rw [hn]; exact hhi)
      | deleteProject r =>
          have hc : creates (Call.deleteProject r :: t) = creates t := by
            simp [creates, Call.isCreate]
          rw [hc] at hhi
          have hn := deleteProject_counter s r
          exact ih (deleteProject s r).1 hdect
            (ascending_of_sublist (deleteProject_sublist s r) hn h) (by rw [hn]; exact hlo)
            (by rw [hn]; exact hhi)

/-- C18, as the code has it: after every sequence of handler calls from the
initial store in which every Update body decodes without error and fewer than
2^63 - 1 Creates occur, the list is in strictly ascending order of ID and
every ID in it is at least 1 and below the counter, so that no project of the
list has the ID the next Create hands out. -/
theorem reachable_ascending (t : List Call) (hdec : UpdatesDecode t)
    (hn : creates t < 2 ^ 63 - 1) :
    AscendingBelowCounter (runCalls Store.init t) ∧
      ∀ p ∈ (runCalls Store.init t).projectList,
        p.ID ≠ (runCalls Store.init t).nextProjectID := by
  have hinit : AscendingBelowCounter Store.init :=
    ⟨List.Pairwise.nil, fun p hp => by cases hp⟩
  have h := ascending_runCalls t Store.init hdec hinit (by simp [Store.init])
    (by simp only [Store.init]; omega)
  exact ⟨h, fun p hp => ne_of_lt (h.2 p hp).2⟩

/-- Witness of C18 as amended: two Creates, an Update of project 1 that
decodes, a Delete of project 1 and a third Create. -/
theorem reachable_ascending_witness :
    AscendingBelowCounter
        (runCalls Store.init
          [Call.createProject ⟨"POST", "/projects", Body.value (JSON.object [])⟩,
           Call.createProject ⟨"POST", "/projects", Body.value (JSON.object [])⟩,
           Call.updateProject ⟨"PUT", "/projects/1",
             Body.value (JSON.object [("id", JSON.integer 2), ("title", JSON.string "B")])⟩,
           Call.deleteProject ⟨"DELETE", "/projects/1", Body.malformed⟩,
           Call.createProject ⟨"POST", "/projects", Body.malformed⟩]) ∧
      ∀ p ∈ (runCalls Store.init
          [Call.createProject ⟨"POST", "/projects", Body.value (JSON.object [])⟩,
           Call.createProject ⟨"POST", "/projects", Body.value (JSON.object [])⟩,
           Call.updateProject ⟨"PUT", "/projects/1",
             Body.value (JSON.object [("id", JSON.integer 2), ("title", JSON.string "B")])⟩,
           Call.deleteProject ⟨"DELETE", "/projects/1", Body.malformed⟩,
           Call.createProject ⟨"POST", "/projects", Body.malformed⟩]).projectList,
        p.ID ≠ (runCalls Store.init
          [Call.createProject ⟨"POST", "/projects", Body.value (JSON.object [])⟩,
           Call.createProject ⟨"POST", "/projects", Body.value (JSON.object [])⟩,
           Call.updateProject ⟨"PUT", "/projects/1",
             Body.value (JSON.object [("id", JSON.integer 2), ("title", JSON.string "B")])⟩,
           Call.deleteProject ⟨"DELETE", "/projects/1", Body.malformed⟩,
           Call.createProject ⟨"POST", "/projects", Body.malformed⟩]).nextProjectID :=
  reachable_ascending _
    (by
      intro r hr p
      simp only [List.mem_cons, List.mem_singleton, reduceCtorEq, false_or, or_false,
        Call.updateProject.injEq, List.not_mem_nil] at hr
      subst hr
      rfl)
    (by decide)

theorem runCalls_append (t1 t2 : List Call) :
    ∀ s : Store, runCalls s (t1 ++ t2) = runCalls (runCalls s t1) t2 := by
  induction t1 with
  | nil => intro s; rfl
  | cons c t1 ih => intro s; exact ih (c.run s).1

theorem runCalls_cons (s : Store) (c : Call) (t : List Call) :
    runCalls s (c :: t) = runCalls (c.run s).1 t := rfl

theorem digitChar_toNat (d : Nat) (h : d < 10) : (Char.ofNat (48 + d)).toNat = 48 + d := by
  interval_cases d <;> rfl

theorem parseDigits_append (xs ys : List Char) :
    ∀ acc : Nat, parseDigits (xs ++ ys) acc = (parseDigits xs acc).bind (parseDigits ys) := by
  induction xs with
  | nil => intro acc; rfl
  | cons c cs ih =>
      intro acc
      by_cases hc : 48 ≤ c.toNat ∧ c.toNat ≤ 57
      · simp only [List.cons_append, parseDigits, hc, and_self, if_true]
        exact ih _
      · simp [parseDigits, hc]

theorem parseDigits_digits (l : List Nat) (h : ∀ d ∈ l, d < 10) :
    parseDigits (l.reverse.map (fun d => Char.ofNat (48 + d))) 0 = some (Nat.ofDigits 10 l) := by
  induction l with
  | nil => rfl
  | cons d l ih =>
      have hd : d < 10 := h d (List.mem_cons_self _ _)
      have hl : ∀ x ∈ l, x < 10 := fun x hx => h x (List.mem_cons_of_mem _ hx)
      rw [List.reverse_cons, List.map_append, parseDigits_append, ih hl]
      simp only [List.map_cons, List.map_nil, Option.some_bind, parseDigits,
        digitChar_toNat d hd]
      rw [if_pos (by omega)]
      simp only [Nat.ofDigits_cons, Nat.cast_id]
      congr 1
      omega

theorem Atoi_decimal (k : Nat) (hk : 1 ≤ k) (hlt : k < 2 ^ 63) :
    Atoi (decimal k) = some (k : Int) := by
  have hparse : parseDigits (decimal k) 0 = some k := by
    unfold decimal
    rw [parseDigits_digits _ (fun d hd => Nat.digits_lt_base (by norm_num) hd),
      Nat.ofDigits_digits]
  have hne : decimal k ≠ [] := by
    unfold decimal
    simp only [ne_eq, List.map_eq_nil_iff, List.reverse_eq_nil_iff]
    exact Nat.digits_ne_nil_iff_ne_zero.mpr (by omega)
  cases hdec : decimal k with
  | nil => exact absurd hdec hne
  | cons c cs =>
      have hc : c ∈ decimal k := by rw [hdec]; exact List.mem_cons_self _ _
      obtain ⟨d, hd, hcd⟩ : ∃ d, d < 10 ∧ c = Char.ofNat (48 + d) := by
        unfold decimal at hc
        obtain ⟨d, hdmem, hdc⟩ := List.mem_map.mp hc
        exact ⟨d, Nat.digits_lt_base (by norm_num) (List.mem_reverse.mp hdmem), hdc.symm⟩
      have hsign : ¬ (c = '-' ∨ c = '+') := by
        rw [hcd]
        interval_cases d <;> decide
      rw [hdec] at hparse
      have hrange : -(2 ^ 63) ≤ (k : Int) ∧ (k : Int) < 2 ^ 63 := by
        constructor
        · omega
        · exact_mod_cast hlt
      have hminus : c ≠ '-' := fun h => hsign (Or.inl h)
      have hplus : c ≠ '+' := fun h => hsign (Or.inr h)
      simp only [Atoi, hminus, hplus, or_self, if_false, hparse, decide_False,
        Bool.false_eq_true]
      rw [if_pos hrange]

theorem firstSegment_decimal (k : Nat) : firstSegment (decimal k) = decimal k := by
  unfold firstSegment
  rw [List.takeWhile_eq_self_iff]
  intro c hc
  unfold decimal at hc
  obtain ⟨d, hdmem, hdc⟩ := List.mem_map.mp hc
  have hd : d < 10 := Nat.digits_lt_base (by norm_num) (List.mem_reverse.mp hdmem)
  rw [← hdc]
  interval_cases d <;> decide

theorem extractID_idPath (k : Nat) (hk : 1 ≤ k) (hlt : k < 2 ^ 63) :
    extractID (idPath k) = some (k : Int) := by
  unfold idPath
  rw [extractID_projects, firstSegment_decimal, Atoi_decimal k hk hlt]

/-- One round on an empty list: Create appends the project with the counter
as its ID, the Delete that follows removes it again, and the counter has grown
by one. -/
theorem round_step (first : Nat) (hk : 1 ≤ first) (hlt : (first : Int) + 1 ≤ 2 ^ 63 - 1) :
    (deleteProject
        (createProject ⟨[], (first : Int)⟩ ⟨"POST", "/projects", Body.malformed⟩).1
        ⟨"DELETE", idPath first, Body.malformed⟩).1 = ⟨[], (first : Int) + 1⟩ := by
  have hid : extractID (idPath first) = some (first : Int) :=
    extractID_idPath first hk (by
      have : (first : Int) < 2 ^ 63 := by omega
      exact_mod_cast this)
  rw [createProject_post _ _ rfl, wrapInt_eq (by simp only; omega) (by simp only; omega)]
  simp [deleteProject, hid, deleteLoop]

theorem runCalls_rounds (n : Nat) :
    ∀ first : Nat, 1 ≤ first → (first : Int) + (n : Int) ≤ 2 ^ 63 - 1 →
      runCalls ⟨[], (first : Int)⟩ (createDeleteRounds first n) =
        ⟨[], (first : Int) + (n : Int)⟩ := by
  induction n with
  | zero => intro first _ _; simp [createDeleteRounds, runCalls]
  | succ n ih =>
      intro first hk hhi
      push_cast at hhi
      rw [createDeleteRounds, runCalls_cons, runCalls_cons]
      simp only [Call.run]
      rw [round_step first hk (by omega)]
      have := ih (first + 1) (by omega) (by push_cast; omega)
      push_cast at this
      rw [this]
      push_cast
      congr 1
      ring

theorem createDeleteRounds_no_update (n : Nat) :
    ∀ (first : Nat) (r : Request), Call.updateProject r ∉ createDeleteRounds first n := by
  induction n with
  | zero => intro first r; simp [createDeleteRounds]
  | succ n ih =>
      intro first r
      simp only [createDeleteRounds, List.mem_cons, reduceCtorEq, false_or]
      exact ih (first + 1) r

/-- The rounds that bring the counter from 1 to 2^63 - 1, followed by one more
Create: the store ends with the one project of ID 2^63 - 1 and the counter
-2^63. -/
theorem rounds_until_wrap (n : Nat) (hn : (1 : Int) + (n : Int) = 2 ^ 63 - 1) :
    runCalls Store.init
        (createDeleteRounds 1 n ++
          [Call.createProject ⟨"POST", "/projects", Body.malformed⟩]) =
      ⟨[⟨9223372036854775807, "", "", "notstarted"⟩], -9223372036854775808⟩ := by
  have hrounds := runCalls_rounds n 1 (le_refl 1) (by push_cast; omega)
  have hinit : Store.init = ⟨[], ((1 : Nat) : Int)⟩ := rfl
  rw [runCalls_append, hinit, hrounds]
  push_cast
  rw [hn, runCalls_cons]
  decide

/-- Counterexample to C18 as stated: 2^63 - 2 rounds of a Create followed by
the Delete of the project just created, then one more Create. No Update occurs
and the list never holds more than one project: it is empty after every
round. The last Create hands out ID 2^63 - 1 and wraps the counter to -2^63,
so the ID in the list is not below the counter. -/
theorem ascending_fails_after_wrap_counterexample :
    UpdatesDecode
        (createDeleteRounds 1 9223372036854775806 ++
          [Call.createProject ⟨"POST", "/projects", Body.malformed⟩]) ∧
      (∀ k : Nat, k ≤ 9223372036854775806 →
        runCalls Store.init (createDeleteRounds 1 k) = ⟨[], 1 + (k : Int)⟩) ∧
      runCalls Store.init
          (createDeleteRounds 1 9223372036854775806 ++
            [Call.createProject ⟨"POST", "/projects", Body.malformed⟩]) =
        ⟨[⟨9223372036854775807, "", "", "notstarted"⟩], -9223372036854775808⟩ ∧
      ¬ AscendingBelowCounter
        (runCalls Store.init
          (createDeleteRounds 1 9223372036854775806 ++
            [Call.createProject ⟨"POST", "/projects", Body.malformed⟩])) := by
  have hw := rounds_until_wrap 9223372036854775806 (by norm_num)
  refine ⟨?_, ?_, hw, ?_⟩
  · intro r hr
    rcases List.mem_append.mp hr with h | h
    · exact absurd h (createDeleteRounds_no_update _ _ r)
    · simp only [List.mem_singleton, reduceCtorEq] at h
  · intro k hk
    have hinit : Store.init = ⟨[], ((1 : Nat) : Int)⟩ := rfl
    rw [hinit, runCalls_rounds k 1 (le_refl 1) (by push_cast; omega)]
    push_cast
    rfl
  · rw [hw]
    intro hinv
    have := (hinv.2 ⟨9223372036854775807, "", "", "notstarted"⟩
      (List.mem_singleton.mpr rfl)).2
    exact absurd this (by decide)

end ProjectAPI
